import Mathlib

/-!
# enrich_server: list filtering, creation and enrichment

A shallow embedding of the request pipeline of `OksidGen/enrich_server`:

* `internal/usecase/usecase.go`    : `GetPeople`, `CreatePerson`, `UpdatePerson`,
  `enrichPersonData`, `getAge`, `getGender`, `getNationality`, `validateFields`
* `internal/repository/postgres.go`: `GetPeopleWithFilters`, `UpdatePerson`
* `internal/entity/person.go`      : `Person`, `MapToPerson`
* `internal/delivery/handlers.go`  : the `POST /people` and `PUT /people/:id` handlers

Conventions of the embedding.

* A Go `map[string]T` is an association list `List (String × T)`; `range` visits the
  entries in list order.  Go leaves the iteration order unspecified, so a statement
  that quantifies over every list covers every order the runtime may choose.
* Go `int` is the 64-bit two's complement integer: values are `Int`, arithmetic is
  wrapped with `wrapInt`.
* A function that ends in a call through the `Repository` interface returns the call
  it makes (`RepoCall`); an error returned before that call is `Except.error`.
* Outbound HTTP and the store are parameters (`Providers`, `Store`); every call made
  is recorded in a trace of `Call`s.
-/

namespace EnrichServer

/-! ## Go primitives -/

deriving instance DecidableEq for Except

/-- Reduction of a mathematical integer to the 64-bit two's complement range of Go `int`. -/
def wrapInt (x : Int) : Int := (x + 2 ^ 63) % 2 ^ 64 - 2 ^ 63

/-- Go `a - b` on `int`. -/
def intSub (a b : Int) : Int := wrapInt (a - b)

/-- Go `a * b` on `int`. -/
def intMul (a b : Int) : Int := wrapInt (a * b)

/-- The errors that travel through the pipeline. -/
inductive GoError where
  /-- The error `strconv.Atoi: parsing "input": invalid syntax`. -/
  | atoiInvalid (input : String)
  /-- The error `strconv.Atoi: parsing "input": value out of range`. -/
  | atoiRange (input : String)
  /-- An error built by `fmt.Errorf`, with its message. -/
  | errorf (msg : String)
  /-- An error returned by the database driver. -/
  | store (msg : String)
  /-- An error returned by the request binder (malformed body). -/
  | bind (msg : String)
  deriving DecidableEq, Repr

/-- Outcome of scanning the digits of a numeral (`strconv.ParseUint`, base 10, 64 bits). -/
inductive ScanResult where
  | value (n : Nat)
  | badDigit
  | tooLarge
  deriving DecidableEq, Repr

/-- The digit loop of `strconv.ParseUint(s, 10, 64)`: a byte that is not a decimal digit
is a syntax error, an accumulated value above `2^64 - 1` is a range error; the first of
the two met from the left decides. -/
def scanDigits : List Char → Nat → ScanResult
  | [], n => .value n
  | c :: cs, n =>
    if c.isDigit then
      if n * 10 + (c.toNat - 48) > 2 ^ 64 - 1 then .tooLarge
      else scanDigits cs (n * 10 + (c.toNat - 48))
    else .badDigit

/-- Go `strconv.Atoi` on a 64-bit platform: an optional sign `+` or `-`, then one or more
decimal digits, denoting a value in `[-2^63, 2^63 - 1]`. -/
def Atoi (s : String) : Except GoError Int :=
  match s.data with
  | [] => .error (.atoiInvalid s)
  | c :: cs =>
    let neg := c == '-'
    let digits := if c == '-' || c == '+' then cs else c :: cs
    match digits with
    | [] => .error (.atoiInvalid s)
    | d :: ds =>
      match scanDigits (d :: ds) 0 with
      | .badDigit => .error (.atoiInvalid s)
      | .tooLarge => .error (.atoiRange s)
      | .value un =>
        if neg then
          if un > 2 ^ 63 then .error (.atoiRange s) else .ok (-(un : Int))
        else
          if un ≥ 2 ^ 63 then .error (.atoiRange s) else .ok (un : Int)

/-- A Go map with string keys, in the order `range` visits it. -/
abbrev GoMap (β : Type) := List (String × β)

/-- Go `_, ok := m[k]`. -/
def hasKey {β : Type} (m : GoMap β) (k : String) : Bool := (m.lookup k).isSome

/-- Go `delete(m, k)`. -/
def mapDelete {β : Type} (m : GoMap β) (k : String) : GoMap β := m.filter (fun kv => kv.1 != k)

/-- Go `m[k] = v`: the value of an existing key is replaced, a new key is added. -/
def mapSet {β : Type} : GoMap β → String → β → GoMap β
  | [], k, v => [(k, v)]
  | (k', v') :: rest, k, v => if k' = k then (k, v) :: rest else (k', v') :: mapSet rest k v

/-- Go `strings.TrimSuffix`. -/
def trimSuffix (s suffix : String) : String :=
  if suffix.data <:+ s.data then ⟨s.data.take (s.data.length - suffix.data.length)⟩ else s

/-! ## Listing: `usecase.GetPeople` and `postgresRepository.GetPeopleWithFilters` -/

/-- The dynamic values a filter map holds: the text of a query parameter, or a Go `int`
(the result of `Atoi`, the literals `0` and `777`, a pagination number). -/
inductive FilterValue where
  | str (s : String)
  | int (n : Int)
  deriving DecidableEq, Repr

/-- The rendering of a value by the verb `%s` of `fmt.Sprintf`: a string is itself, an
`int` is flagged as a bad operand. -/
def fmtS : FilterValue → String
  | .str s => s
  | .int n => "%!s(int=" ++ toString n ++ ")"

/-- The first five cases of both `switch` statements: the text columns. -/
def textFields : List String := ["name", "surname", "patronymic", "gender", "nationality"]

/-- The numeric filter names. -/
def ageFields : List String := ["age", "minAge", "maxAge"]

/-- The call `GetPeople` ends with, through the `Repository` interface. -/
inductive RepoCall where
  | GetAllPeople
  | GetPeopleWithFilters (filters : GoMap FilterValue) (pagination : GoMap Int)
  deriving DecidableEq, Repr

/-- Lines 43-72 of `usecase.go`: the pagination map built from `page` and `limit`. -/
def resolvePagination (params : GoMap String) : Except GoError (GoMap Int) :=
  match params.lookup "page" with
  | some pageStr =>
    match Atoi pageStr with
    | .error err => .error err
    | .ok page =>
      match params.lookup "limit" with
      | some limitStr =>
        match Atoi limitStr with
        | .error err => .error err
        | .ok limit => .ok [("page", page), ("limit", limit)]
      | none => .ok [("page", page), ("limit", 10)]
  | none =>
    match params.lookup "limit" with
    | some limitStr =>
      match Atoi limitStr with
      | .error err => .error err
      | .ok limit => .ok [("page", 1), ("limit", limit)]
    | none => .ok []

/-- Lines 77-93 of `usecase.go`: the loop over the remaining parameters, filling the
local map `filters`. -/
def classifyParams : GoMap String → GoMap FilterValue → Except GoError (GoMap FilterValue)
  | [], filters => .ok filters
  | (param, value) :: rest, filters =>
    if param ∈ ageFields then
      match Atoi value with
      | .error err => .error err
      | .ok numValue => classifyParams rest (mapSet filters param (.int numValue))
    else if param ∈ textFields then
      classifyParams rest (mapSet filters param (.str value))
    else
      .error (.errorf ("invalid query param: " ++ param))

/-- Lines 94-105 of `usecase.go`: the reconciliation of `age`, `minAge`, `maxAge` in the
local map `filters`. -/
def reconcileAge (filters : GoMap FilterValue) : GoMap FilterValue :=
  if hasKey filters "age" then
    mapDelete (mapDelete filters "minAge") "maxAge"
  else if hasKey filters "minAge" then
    if !hasKey filters "maxAge" then mapSet filters "maxAge" (.int 777) else filters
  else if hasKey filters "maxAge" then
    mapSet filters "minAge" (.int 0)
  else filters

/-- The parameter map as `GetPeople` holds it after `delete(params, "page")` and
`delete(params, "limit")`; its values are the strings the handler stored. -/
def strippedParams (params : GoMap String) : GoMap FilterValue :=
  (mapDelete (mapDelete params "page") "limit").map (fun kv => (kv.1, FilterValue.str kv.2))

/-- The value of the local variable `filters` of `GetPeople` when line 107 is reached. -/
def localFilters (params : GoMap String) : Except GoError (GoMap FilterValue) :=
  match classifyParams (mapDelete (mapDelete params "page") "limit") [] with
  | .error err => .error err
  | .ok filters => .ok (reconcileAge filters)

/-- The function `usecase.GetPeople`.  The parameter values are strings (the handler
stores `value[0]` of each query parameter).  Line 107 passes `params`, not the local
`filters`, to the repository. -/
def usecase.GetPeople (params : GoMap String) : Except GoError RepoCall :=
  if params.length = 0 then .ok .GetAllPeople
  else
    match resolvePagination params with
    | .error err => .error err
    | .ok pagination =>
      match localFilters params with
      | .error err => .error err
      | .ok _ => .ok (.GetPeopleWithFilters (strippedParams params) pagination)

/-- One turn of the loop of `GetPeopleWithFilters` (lines 50-67): the state is the query
text, the argument list and the placeholder counter `id`. -/
def filterStep (st : String × List FilterValue × Nat) (kv : String × FilterValue) :
    String × List FilterValue × Nat :=
  let (query, args, id) := st
  if kv.1 ∈ textFields then
    (query ++ (kv.1 ++ " ILIKE $" ++ toString id ++ " AND "),
      args ++ [.str ("%" ++ fmtS kv.2 ++ "%")], id + 1)
  else if kv.1 = "age" then
    (query ++ ("age = $" ++ toString id ++ " AND "), args ++ [kv.2], id + 1)
  else if kv.1 = "minAge" then
    (query ++ ("age >= $" ++ toString id ++ " AND "), args ++ [kv.2], id + 1)
  else if kv.1 = "maxAge" then
    (query ++ ("age <= $" ++ toString id ++ " AND "), args ++ [kv.2], id + 1)
  else (query, args, id + 1)

/-- The function `postgresRepository.GetPeopleWithFilters`, up to the call of
`SelectContext`: the query text and the argument list it sends. -/
def postgresRepository.GetPeopleWithFilters (filters : GoMap FilterValue) (pagination : GoMap Int) :
    String × List FilterValue :=
  let st : String × List FilterValue × Nat :=
    if filters.length ≠ 0 then
      let st1 := filters.foldl filterStep ("SELECT * FROM people" ++ " WHERE ", [], 1)
      (trimSuffix st1.1 " AND ", st1.2.1, st1.2.2)
    else ("SELECT * FROM people", [], 1)
  if pagination.length ≠ 0 then
    let page := (pagination.lookup "page").getD 0
    let limit := (pagination.lookup "limit").getD 0
    (st.1 ++ (" LIMIT $" ++ toString st.2.2 ++ " OFFSET $" ++ toString (st.2.2 + 1)),
      st.2.1 ++ [.int limit, .int (intMul (intSub page 1) limit)])
  else (st.1, st.2.1)

/-- The query `GetAllPeople` sends. -/
def GetAllPeopleQuery : String :=
  "SELECT id, name, surname, patronymic, age, gender, nationality FROM people"

/-- The allow-list of query parameter names of the specification. -/
def queryAllowList : List String :=
  ["name", "surname", "patronymic", "gender", "nationality", "age", "minAge", "maxAge",
    "page", "limit"]

/-- The query parameters whose value `GetPeople` hands to `Atoi`. -/
def numericParams : List String := ["page", "limit", "age", "minAge", "maxAge"]

/-- What reaches `SelectContext` for a given repository call. -/
def storeRequest : RepoCall → String × List FilterValue
  | .GetAllPeople => (GetAllPeopleQuery, [])
  | .GetPeopleWithFilters filters pagination => postgresRepository.GetPeopleWithFilters filters pagination

/-! ## Creation: `entity.Person`, `validateFields`, `enrichPersonData`, `usecase.CreatePerson` -/

/-- The dynamic values an `interface{}` of a payload or of a decoded JSON document holds.
`encoding/json` decodes into `null`, `bool`, `float64`, `string`, `array` and `object`
only; `int` is the Go type `int`, which a caller other than the JSON decoder may supply.
The payload of `float64` is the number the float stands for. -/
inductive GoValue where
  | null
  | bool (b : Bool)
  | float64 (x : Rat)
  | int (n : Int)
  | string (s : String)
  | array (xs : List GoValue)
  | object (m : List (String × GoValue))

/-- The values `encoding/json` can deliver at the top level of a decoded object: every
dynamic type but Go `int`. -/
def GoValue.jsonDecoded : GoValue → Bool
  | .int _ => false
  | _ => true

/-- The struct `entity.Person`. -/
structure Person where
  ID : Int := 0
  Name : String := ""
  Surname : String := ""
  Patronymic : String := ""
  Age : Int := 0
  Gender : String := ""
  Nationality : String := ""
  deriving DecidableEq, Repr

/-- The method `(*Person).MapToPerson`: the payload entries are visited in order, each
assigns its field after a type assertion, and the first failed assertion (or unknown
key) ends the loop with its error.  The result is the receiver after the loop. -/
def Person.MapToPerson : Person → GoMap GoValue → Except GoError Person
  | person, [] => .ok person
  | person, (key, value) :: rest =>
    if key = "name" then
      match value with
      | .string name => Person.MapToPerson { person with Name := name } rest
      | _ => .error (.errorf "Ошибка в поле 'name'")
    else if key = "surname" then
      match value with
      | .string surname => Person.MapToPerson { person with Surname := surname } rest
      | _ => .error (.errorf "Ошибка в поле 'surname'")
    else if key = "patronymic" then
      match value with
      | .string patronymic => Person.MapToPerson { person with Patronymic := patronymic } rest
      | _ => .error (.errorf "Ошибка в поле 'patronymic'")
    else if key = "age" then
      match value with
      | .int age => Person.MapToPerson { person with Age := age } rest
      | _ => .error (.errorf "Ошибка в поле 'age'")
    else if key = "gender" then
      match value with
      | .string gender => Person.MapToPerson { person with Gender := gender } rest
      | _ => .error (.errorf "Ошибка в поле 'gender'")
    else if key = "nationality" then
      match value with
      | .string nationality => Person.MapToPerson { person with Nationality := nationality } rest
      | _ => .error (.errorf "Ошибка в поле 'nationality'")
    else .error (.errorf ("Недопустимое поле: " ++ key))

/-- The keys of the map `allowedFields` of `validateFields`. -/
def allowedFields : List String :=
  ["name", "surname", "patronymic", "age", "gender", "nationality"]

/-- The function `validateFields`: `none` is the `nil` error. -/
def validateFields : GoMap GoValue → Option GoError
  | [] => none
  | (field, _) :: rest =>
    if field ∈ allowedFields then validateFields rest
    else some (.errorf ("invalid field: " ++ field))

/-- What `http.Get`, `io.ReadAll` and `json.Unmarshal` into a `map[string]interface{}`
deliver for one URL. -/
inductive Fetched where
  /-- The call `http.Get` returned an error. -/
  | transportError
  /-- The call `io.ReadAll` returned an error. -/
  | readError
  /-- The call `json.Unmarshal` returned an error. -/
  | unmarshalError
  /-- The body was decoded into this map. -/
  | decoded (m : GoMap GoValue)

/-- The outside world of the enrichment: the reply to a GET of each URL. -/
structure Providers where
  get : String → Fetched

/-- The repository as the use cases see it: the results of its calls. -/
structure Store where
  CreatePerson : Person → Except GoError Int
  UpdatePerson : Int → GoMap GoValue → Option GoError

/-- The calls that leave the use-case layer. -/
inductive Call where
  | httpGet (url : String)
  | repoCreatePerson (person : Person)
  | repoUpdatePerson (id : Int) (updates : GoMap GoValue)

/-- How a call of a use case or handler ends: a value, an error, or a run-time panic. -/
inductive Outcome (α : Type) where
  | ok (a : α)
  | error (err : GoError)
  | panic

/-- The URL `fmt.Sprintf(agifyAPI, name)`. -/
def agifyAPI (name : String) : String := "https://api.agify.io/?name=" ++ name

/-- The URL `fmt.Sprintf(genderizeAPI, name)`. -/
def genderizeAPI (name : String) : String := "https://api.genderize.io/?name=" ++ name

/-- The URL `fmt.Sprintf(nationalizeAPI, name)`. -/
def nationalizeAPI (name : String) : String := "https://api.nationalize.io/?name=" ++ name

/-- Go `int(x)` for a `float64`: the fraction is discarded.  A result outside the `int`
range is implementation-dependent in Go; the value of amd64 is used. -/
def float64ToInt (x : Rat) : Int :=
  let t := Int.tdiv x.num x.den
  if -(2 ^ 63) ≤ t ∧ t < 2 ^ 63 then t else -(2 ^ 63)

/-- The function `getAge`: the calls made and the value returned. -/
def getAge (W : Providers) (name : String) : List Call × Int :=
  ([.httpGet (agifyAPI name)],
    match W.get (agifyAPI name) with
    | .decoded ageResponse =>
      match ageResponse.lookup "age" with
      | some (.float64 age) => float64ToInt age
      | _ => 0
    | _ => 0)

/-- The function `getGender`: the calls made and the value returned. -/
def getGender (W : Providers) (name : String) : List Call × String :=
  ([.httpGet (genderizeAPI name)],
    match W.get (genderizeAPI name) with
    | .decoded genderResponse =>
      match genderResponse.lookup "gender" with
      | some (.string gender) => gender
      | _ => ""
    | _ => "")

/-- The function `getNationality`: the calls made and the value returned; `none` is the
panic of the unchecked type assertion `countryArray[0].(map[string]interface{})`. -/
def getNationality (W : Providers) (name : String) : List Call × Option String :=
  ([.httpGet (nationalizeAPI name)],
    match W.get (nationalizeAPI name) with
    | .decoded nationalityResponse =>
      match nationalityResponse.lookup "country" with
      | some (.array (first :: _)) =>
        match first with
        | .object countryInfo =>
          match countryInfo.lookup "country_id" with
          | some (.string countryCode) => some countryCode
          | _ => some ""
        | _ => none
      | _ => some ""
    | _ => some "")

/-- The function `enrichPersonData`: the calls made and the person afterwards; `none` is
a panic. -/
def enrichPersonData (W : Providers) (person : Person) : List Call × Option Person :=
  if person.Name ≠ "" then
    let age := getAge W person.Name
    let gender := getGender W person.Name
    let nationality := getNationality W person.Name
    (age.1 ++ gender.1 ++ nationality.1,
      match nationality.2 with
      | some code => some { person with Age := age.2, Gender := gender.2, Nationality := code }
      | none => none)
  else ([], some person)

/-- The method `usecase.CreatePerson`: the calls made and the outcome. -/
def usecase.CreatePerson (W : Providers) (S : Store) (params : GoMap GoValue) :
    List Call × Outcome Int :=
  match validateFields params with
  | some err => ([], .error err)
  | none =>
    match Person.MapToPerson {} params with
    | .error err => ([], .error err)
    | .ok person =>
      match enrichPersonData W person with
      | (calls, none) => (calls, .panic)
      | (calls, some enriched) =>
        (calls ++ [.repoCreatePerson enriched],
          match S.CreatePerson enriched with
          | .ok id => .ok id
          | .error err => .error err)

/-- The method `usecase.UpdatePerson`: the calls made and the error returned. -/
def usecase.UpdatePerson (S : Store) (id : Int) (updates : GoMap GoValue) :
    List Call × Option GoError :=
  match validateFields updates with
  | some err => ([], some err)
  | none => ([.repoUpdatePerson id updates], S.UpdatePerson id updates)

/-- The body of a response of the `POST /people` handler. -/
inductive ResponseBody where
  /-- The JSON object with the key `error` and the message of the error. -/
  | error (err : GoError)
  /-- The JSON object with the key `id`. -/
  | id (id : Int)
  deriving DecidableEq, Repr

/-- The handler `Delivery.CreatePerson`: `bound` is what `c.Bind(&params)` delivers (its
error, or the decoded body); the result is the calls made and the status and body
written, `none` when the handler panics. -/
def Delivery.CreatePerson (W : Providers) (S : Store) (bound : Except GoError (GoMap GoValue)) :
    List Call × Option (Nat × ResponseBody) :=
  match bound with
  | .error err => ([], some (400, .error err))
  | .ok params =>
    match usecase.CreatePerson W S params with
    | (calls, .error err) => (calls, some (500, .error err))
    | (calls, .ok id) => (calls, some (201, .id id))
    | (calls, .panic) => (calls, none)

/-! ## Update: `postgresRepository.UpdatePerson` and the `PUT /people/:id` handler -/

/-- One turn of the loop of `postgresRepository.UpdatePerson` (lines 122-127): the state
is the statement text, the argument list and the placeholder counter `i`. -/
def updateStep (st : String × List GoValue × Nat) (fv : String × GoValue) :
    String × List GoValue × Nat :=
  (st.1 ++ (fv.1 ++ " = $" ++ toString st.2.2 ++ ", "), st.2.1 ++ [fv.2], st.2.2 + 1)

/-- Go `s[:len(s)-2]` for a text whose last two bytes are ASCII characters, as the last
two bytes of the statement text always are. -/
def dropLastTwo (s : String) : String := ⟨s.data.take (s.data.length - 2)⟩

/-- The method `postgresRepository.UpdatePerson`, up to the call of `ExecContext`: the
statement text and the argument list it sends. -/
def postgresRepository.UpdatePerson (id : Int) (updates : GoMap GoValue) :
    String × List GoValue :=
  let st := updates.foldl updateStep ("UPDATE people SET ", [], 1)
  (dropLastTwo st.1 ++ (" WHERE id = $" ++ toString st.2.2), st.2.1 ++ [.int id])

/-- The body of a response of the `PUT /people/:id` handler. -/
inductive UpdateResponseBody where
  /-- The JSON object with the key `error` and the message of the error. -/
  | error (err : GoError)
  /-- The JSON object with the key `message`. -/
  | message (msg : String)
  deriving DecidableEq, Repr

/-- The handler `Delivery.UpdatePerson`: `idParam` is the path parameter `id`, `bound` is
what `c.Bind(&updates)` delivers (its error, or the decoded body); the result is the
calls made and the status and body written. -/
def Delivery.UpdatePerson (S : Store) (idParam : String)
    (bound : Except GoError (GoMap GoValue)) : List Call × (Nat × UpdateResponseBody) :=
  match Atoi idParam with
  | .error err => ([], (400, .error err))
  | .ok id =>
    match bound with
    | .error err => ([], (400, .error err))
    | .ok updates =>
      match usecase.UpdatePerson S id (mapDelete updates "id") with
      | (calls, some err) => (calls, (500, .error err))
      | (calls, none) => (calls, (200, .message "Person updated"))

/-- What reaches `ExecContext` for a call of the repository method `UpdatePerson`. -/
def updateRequest : Call → Option (String × List GoValue)
  | .repoUpdatePerson id updates => some (postgresRepository.UpdatePerson id updates)
  | _ => none

/-! ## Statements of the specification -/

/-- The statement of C2 as written: an unknown key `k` of the mapping always yields the
error `invalid query param: k`. -/
def UnknownParamReported (params : GoMap String) (k : String) : Prop :=
  k ∈ params.map Prod.fst → k ∉ queryAllowList →
    usecase.GetPeople params = .error (.errorf ("invalid query param: " ++ k))

/-- The value of a string of decimal digits read after the value `n`, without any bound;
`none` when a character is not a decimal digit. -/
def digitsValue : List Char → Nat → Option Nat
  | [], n => some n
  | c :: cs, n => if c.isDigit then digitsValue cs (n * 10 + (c.toNat - 48)) else none

/-- The integer a text denotes as an integer numeral (an optional sign `+` or `-`, then
one or more decimal digits); `none` when the text is not an integer numeral. -/
def intNumeral? (s : String) : Option Int :=
  match s.data with
  | [] => none
  | c :: cs =>
    let digits := if c == '-' || c == '+' then cs else c :: cs
    match digits with
    | [] => none
    | d :: ds =>
      (digitsValue (d :: ds) 0).map
        (fun (n : Nat) => if c == '-' then -(Int.ofNat n) else Int.ofNat n)

/-- The text of a parameter, when present, is an integer numeral that denotes the given
integer, and that integer is in the range of Go `int`. -/
def parsesTo : Option String → Option Int → Prop
  | none, none => True
  | some s, some p => intNumeral? s = some p ∧ -(2 ^ 63) ≤ p ∧ p < 2 ^ 63
  | _, _ => False

/-- The limit and the offset the specification resolves from `page` and `limit`, the
offset in the arithmetic of Go `int`. -/
def expectedPagination : Option Int → Option Int → Option (Int × Int)
  | some p, some l => some (l, intMul (intSub p 1) l)
  | some p, none => some (10, intMul (intSub p 1) 10)
  | none, some l => some (l, 0)
  | none, none => none

/-- A query and its arguments, followed by the `LIMIT`/`OFFSET` clause after `n` filter
placeholders when a limit and an offset are given. -/
def withLimitOffset (base : String × List FilterValue) (n : Nat) :
    Option (Int × Int) → String × List FilterValue
  | none => base
  | some (l, off) =>
    (base.1 ++ (" LIMIT $" ++ toString (n + 1) ++ " OFFSET $" ++ toString (n + 2)),
      base.2 ++ [.int l, .int off])

/-- The statement of C4 as written, for a mapping with `page`: the store is queried, and
the last two arguments are the limit `l` (10 when `limit` is absent) and the offset
`(p - 1) * l`, for the integers the texts denote. -/
def PaginationAsStated (params : GoMap String) : Prop :=
  ∀ p, (params.lookup "page").bind intNumeral? = some p →
    ∃ filters pag, usecase.GetPeople params = .ok (.GetPeopleWithFilters filters pag) ∧
      ∀ l, (match params.lookup "limit" with
          | some s => intNumeral? s = some l
          | none => l = 10) →
        (postgresRepository.GetPeopleWithFilters filters pag).2 =
          (postgresRepository.GetPeopleWithFilters filters []).2 ++
            [.int l, .int ((p - 1) * l)]

/-- The names a filter set may hold. -/
def filterKeys : List String :=
  ["name", "surname", "patronymic", "gender", "nationality", "age", "minAge", "maxAge"]

/-- The predicate of the specification for the filter `key` with placeholder number `i`. -/
def predicate (key : String) (i : Nat) : String :=
  if key = "age" then "age = $" ++ toString i
  else if key = "minAge" then "age >= $" ++ toString i
  else if key = "maxAge" then "age <= $" ++ toString i
  else key ++ " ILIKE $" ++ toString i

/-- The predicates for the keys in visiting order, numbered from `i`. -/
def predicates : List String → Nat → List String
  | [], _ => []
  | key :: rest, i => predicate key i :: predicates rest (i + 1)

/-- The argument of the specification for a filter: the value itself for a numeric
filter, the text between two `%` for a text filter. -/
def argument (kv : String × FilterValue) : FilterValue :=
  if kv.1 = "age" ∨ kv.1 = "minAge" ∨ kv.1 = "maxAge" then kv.2
  else .str ("%" ++ fmtS kv.2 ++ "%")

/-- The query text of the specification for the keys in visiting order. -/
def expectedQuery (keys : List String) (paginated : Bool) : String :=
  "SELECT * FROM people" ++
    (if keys = [] then "" else " WHERE " ++ " AND ".intercalate (predicates keys 1)) ++
    (if paginated then
      " LIMIT $" ++ toString (keys.length + 1) ++ " OFFSET $" ++ toString (keys.length + 2)
    else "")

/-- The predicates, each followed by the separator the loop writes after it. -/
def andText : List String → String
  | [] => ""
  | c :: cs => c ++ " AND " ++ andText cs

/-- The argument list of the specification. -/
def expectedArgs (filters : GoMap FilterValue) (pagination : GoMap Int) : List FilterValue :=
  filters.map argument ++
    (if pagination = [] then []
    else
      [.int ((pagination.lookup "limit").getD 0),
        .int (intMul (intSub ((pagination.lookup "page").getD 0) 1)
          ((pagination.lookup "limit").getD 0))])

/-- The argument list of C5 as written: the offset is the product of the integers. -/
def statedArgs (filters : GoMap FilterValue) (pagination : GoMap Int) : List FilterValue :=
  filters.map argument ++
    (if pagination = [] then []
    else
      [.int ((pagination.lookup "limit").getD 0),
        .int (((pagination.lookup "page").getD 0 - 1) * (pagination.lookup "limit").getD 0)])

/-- Providers that cannot be reached: every GET fails in transport. -/
def offlineProviders : Providers := ⟨fun _ => .transportError⟩

/-- A store whose calls succeed, the insert returning the id 1. -/
def acceptingStore : Store := ⟨fun _ => .ok 1, fun _ _ => none⟩

/-- The statement of C7 as written, for a decoded payload: a payload that fails the
validation of field names or the mapping of field types is answered with status 400. -/
def ValidationFailureIs400 (W : Providers) (S : Store) (params : GoMap GoValue) : Prop :=
  (validateFields params ≠ none ∨ ∃ err, Person.MapToPerson {} params = .error err) →
    ∃ body, (Delivery.CreatePerson W S (.ok params)).2 = some (400, body)

/-- The outcome of the age provider as the specification sees it: the value of a reply
whose `age` is a number, `none` for every failure. -/
def ageOutcome : Fetched → Option Int
  | .decoded m =>
    match m.lookup "age" with
    | some (.float64 x) => some (float64ToInt x)
    | _ => none
  | _ => none

/-- The outcome of the gender provider: the value of a reply whose `gender` is a string,
`none` for every failure. -/
def genderOutcome : Fetched → Option String
  | .decoded m =>
    match m.lookup "gender" with
    | some (.string g) => some g
    | _ => none
  | _ => none

/-- The outcome of the nationality provider: the `country_id` string of the first element
of the array `country` when that element is an object, `none` for every failure. -/
def nationalityOutcome : Fetched → Option String
  | .decoded m =>
    match m.lookup "country" with
    | some (.array (.object info :: _)) =>
      match info.lookup "country_id" with
      | some (.string code) => some code
      | _ => none
    | _ => none
  | _ => none

/-- The replies that are neither a value nor a failure for `getNationality`: a non-empty
array `country` whose first element is not an object, on which the function panics. -/
def nationalityPanics : Fetched → Bool
  | .decoded m =>
    match m.lookup "country" with
    | some (.array (.object _ :: _)) => false
    | some (.array (_ :: _)) => true
    | _ => false
  | _ => false

/-- Providers for the name `Alice`: the age provider answers 30, the nationality
provider answers `US`, the gender provider cannot be reached. -/
def aliceProviders : Providers :=
  ⟨fun url =>
    if url = agifyAPI "Alice" then .decoded [("age", .float64 30)]
    else if url = nationalizeAPI "Alice" then
      .decoded [("country", .array [.object [("country_id", .string "US")]])]
    else .transportError⟩

/-- The statement of C10 as written, for the person mapped from a payload: with an empty
name no call is made and the three attributes are at their zero value afterwards. -/
def EmptyNameGivesZero (W : Providers) (params : GoMap GoValue) : Prop :=
  ∀ person, Person.MapToPerson {} params = .ok person → person.Name = "" →
    ∃ after, enrichPersonData W person = ([], some after) ∧
      after.Age = 0 ∧ after.Gender = "" ∧ after.Nationality = ""

/-- Providers whose nationality reply for `Alice` is the document `{"country": [1]}`;
the other providers cannot be reached. -/
def malformedNationalityProviders : Providers :=
  ⟨fun url =>
    if url = nationalizeAPI "Alice" then .decoded [("country", .array [.float64 1])]
    else .transportError⟩

/-- Providers for the name `Alice` whose age and gender replies are well formed (30 and
`female`) and whose nationality reply is the document `{"country": ["US"]}`: a `country`
array whose first element is a string, not an object. -/
def stringCountryProviders : Providers :=
  ⟨fun url =>
    if url = agifyAPI "Alice" then .decoded [("age", .float64 30)]
    else if url = genderizeAPI "Alice" then .decoded [("gender", .string "female")]
    else if url = nationalizeAPI "Alice" then
      .decoded [("country", .array [.string "US"])]
    else .transportError⟩

/-- The assignments of the specification for the fields in visiting order, numbered
from `i`. -/
def assignments : List String → Nat → List String
  | [], _ => []
  | field :: rest, i => (field ++ " = $" ++ toString i) :: assignments rest (i + 1)

/-- The assignments, each followed by the separator the loop writes after it. -/
def commaText : List String → String
  | [] => ""
  | c :: cs => c ++ ", " ++ commaText cs

/-- The statement of the specification for `n` assignments: the assignments joined by
`, ` after `SET`, then the `WHERE` clause with placeholder `n + 1`. -/
def expectedUpdate (fields : List String) : String :=
  "UPDATE people SET " ++ ", ".intercalate (assignments fields 1) ++
    " WHERE id = $" ++ toString (fields.length + 1)

/-! ## Lemmas on maps -/

theorem lookup_mem {β : Type} (k : String) (v : β) :
    ∀ m : GoMap β, m.lookup k = some v → (k, v) ∈ m
  | [], h => by simp at h
  | (k', v') :: rest, h => by
    by_cases hk : k = k'
    · subst hk
      simp [List.lookup] at h
      simp [h]
    · have hb : (k == k') = false := by simpa using hk
      simp only [List.lookup, hb] at h
      exact List.mem_cons_of_mem _ (lookup_mem k v rest h)

theorem mem_of_mem_mapDelete {β : Type} (m : GoMap β) (k : String) (kv : String × β)
    (h : kv ∈ mapDelete m k) : kv ∈ m := by
  unfold mapDelete at h
  exact (List.mem_filter.mp h).1

theorem mem_mapDelete {β : Type} (m : GoMap β) (k : String) (kv : String × β)
    (h : kv ∈ m) (hne : kv.1 ≠ k) : kv ∈ mapDelete m k := by
  unfold mapDelete
  exact List.mem_filter.mpr ⟨h, by simpa using hne⟩

/-! ## Lemmas on `GetPeople` -/

theorem resolvePagination_error (params : GoMap String) (err : GoError)
    (h : resolvePagination params = .error err) :
    ∃ kv ∈ params, kv.1 ∈ numericParams ∧ Atoi kv.2 = .error err := by
  unfold resolvePagination at h
  cases hp : params.lookup "page" with
  | some pageStr =>
    cases ha : Atoi pageStr with
    | error e =>
      simp only [hp, ha, Except.error.injEq] at h
      subst h
      exact ⟨("page", pageStr), lookup_mem _ _ _ hp, by simp [numericParams], ha⟩
    | ok page =>
      cases hl : params.lookup "limit" with
      | none => simp [hp, ha, hl] at h
      | some limitStr =>
        cases hb : Atoi limitStr with
        | ok limit => simp [hp, ha, hl, hb] at h
        | error e =>
          simp only [hp, ha, hl, hb, Except.error.injEq] at h
          subst h
          exact ⟨("limit", limitStr), lookup_mem _ _ _ hl, by simp [numericParams], hb⟩
  | none =>
    cases hl : params.lookup "limit" with
    | none => simp [hp, hl] at h
    | some limitStr =>
      cases hb : Atoi limitStr with
      | ok limit => simp [hp, hl, hb] at h
      | error e =>
        simp only [hp, hl, hb, Except.error.injEq] at h
        subst h
        exact ⟨("limit", limitStr), lookup_mem _ _ _ hl, by simp [numericParams], hb⟩

theorem classifyParams_unknown :
    ∀ (ps : GoMap String) (acc : GoMap FilterValue),
      (∃ kv ∈ ps, kv.1 ∉ ageFields ∧ kv.1 ∉ textFields) →
      ∃ err, classifyParams ps acc = .error err ∧
        ((∃ kv ∈ ps, kv.1 ∉ ageFields ∧ kv.1 ∉ textFields ∧
            err = .errorf ("invalid query param: " ++ kv.1)) ∨
          (∃ kv ∈ ps, kv.1 ∈ ageFields ∧ Atoi kv.2 = .error err))
  | [], _, h => by
    obtain ⟨kv, hkv, _⟩ := h
    simp at hkv
  | (param, value) :: rest, acc, h => by
    unfold classifyParams
    by_cases hage : param ∈ ageFields
    · simp only [hage, if_true]
      cases ha : Atoi value with
      | error e =>
        exact ⟨e, rfl, Or.inr ⟨(param, value), List.mem_cons_self _ _, hage, ha⟩⟩
      | ok n =>
        have hrest : ∃ kv ∈ rest, kv.1 ∉ ageFields ∧ kv.1 ∉ textFields := by
          obtain ⟨kv, hkv, h1, h2⟩ := h
          rcases List.mem_cons.mp hkv with heq | hmem
          · subst heq
            exact absurd hage h1
          · exact ⟨kv, hmem, h1, h2⟩
        obtain ⟨err, he, hor⟩ := classifyParams_unknown rest (mapSet acc param (.int n)) hrest
        refine ⟨err, he, ?_⟩
        rcases hor with ⟨kv, hkv, h1, h2, h3⟩ | ⟨kv, hkv, h1, h2⟩
        · exact Or.inl ⟨kv, List.mem_cons_of_mem _ hkv, h1, h2, h3⟩
        · exact Or.inr ⟨kv, List.mem_cons_of_mem _ hkv, h1, h2⟩
    · simp only [hage, if_false]
      by_cases htext : param ∈ textFields
      · simp only [htext, if_true]
        have hrest : ∃ kv ∈ rest, kv.1 ∉ ageFields ∧ kv.1 ∉ textFields := by
          obtain ⟨kv, hkv, h1, h2⟩ := h
          rcases List.mem_cons.mp hkv with heq | hmem
          · subst heq
            exact absurd htext h2
          · exact ⟨kv, hmem, h1, h2⟩
        obtain ⟨err, he, hor⟩ :=
          classifyParams_unknown rest (mapSet acc param (.str value)) hrest
        refine ⟨err, he, ?_⟩
        rcases hor with ⟨kv, hkv, h1, h2, h3⟩ | ⟨kv, hkv, h1, h2⟩
        · exact Or.inl ⟨kv, List.mem_cons_of_mem _ hkv, h1, h2, h3⟩
        · exact Or.inr ⟨kv, List.mem_cons_of_mem _ hkv, h1, h2⟩
      · simp only [htext, if_false]
        exact ⟨_, rfl, Or.inl ⟨(param, value), List.mem_cons_self _ _, hage, htext, rfl⟩⟩

theorem allowList_split (k : String) :
    k ∈ queryAllowList ↔ k ∈ ageFields ∨ k ∈ textFields ∨ k = "page" ∨ k = "limit" := by
  simp only [queryAllowList, ageFields, textFields, List.mem_cons, List.mem_singleton,
    List.mem_nil_iff, or_false]
  tauto

theorem numericParams_of_ageFields (k : String) (h : k ∈ ageFields) : k ∈ numericParams := by
  simp only [ageFields, numericParams, List.mem_cons, List.mem_singleton, List.mem_nil_iff,
    or_false] at h ⊢
  tauto

/-! ## Claims on listing -/

/-- C1 (code defect): a mapping with only `minAge` is accepted, the local filter map of
`GetPeople` is reconciled to `minAge = 18, maxAge = 777`, but the filter set handed to
`GetPeopleWithFilters` is the raw parameter map: it holds `minAge` alone, and the
query has no `age <= $k` predicate.  With `age` and `minAge` both given, both are
handed over. -/
theorem GetPeople_hands_over_raw_params :
    localFilters [("minAge", "18")] = .ok [("minAge", .int 18), ("maxAge", .int 777)] ∧
    usecase.GetPeople [("minAge", "18")] =
      .ok (.GetPeopleWithFilters [("minAge", .str "18")] []) ∧
    postgresRepository.GetPeopleWithFilters [("minAge", .str "18")] [] =
      ("SELECT * FROM people WHERE age >= $1", [.str "18"]) ∧
    localFilters [("age", "30"), ("minAge", "1")] = .ok [("age", .int 30)] ∧
    usecase.GetPeople [("age", "30"), ("minAge", "1")] =
      .ok (.GetPeopleWithFilters [("age", .str "30"), ("minAge", .str "1")] []) := by
  decide

/-- C2 (counterexample): in the mapping `page = x, foo = 1` the key `foo` is outside the
allow-list, yet `GetPeople` fails with the parse error of `page`, which is converted
first. -/
theorem unknown_param_not_always_reported :
    ¬ UnknownParamReported [("page", "x"), ("foo", "1")] "foo" := by
  intro h
  have h2 := h (by decide) (by decide)
  revert h2
  decide

/-- C2 (amended): a mapping with a key `k` outside the allow-list makes `GetPeople` fail
before any repository call.  The error is the unknown-parameter error of some key of the
mapping outside the allow-list, or the `Atoi` error of the value of a numeric parameter
of the mapping; when every numeric parameter converts and `k` is the only key outside
the allow-list, it is `invalid query param: k`. -/
theorem GetPeople_unknown_param (params : GoMap String) (k : String)
    (hk : k ∈ params.map Prod.fst) (hbad : k ∉ queryAllowList) :
    ∃ err, usecase.GetPeople params = .error err ∧
      ((∃ k' ∈ params.map Prod.fst, k' ∉ queryAllowList ∧
          err = .errorf ("invalid query param: " ++ k')) ∨
        (∃ kv ∈ params, kv.1 ∈ numericParams ∧ Atoi kv.2 = .error err)) ∧
      ((∀ kv ∈ params, kv.1 ∈ numericParams → ∃ n, Atoi kv.2 = .ok n) →
        (∀ k' ∈ params.map Prod.fst, k' ∉ queryAllowList → k' = k) →
        err = .errorf ("invalid query param: " ++ k)) := by
  have main : ∃ err, usecase.GetPeople params = .error err ∧
      ((∃ k' ∈ params.map Prod.fst, k' ∉ queryAllowList ∧
          err = .errorf ("invalid query param: " ++ k')) ∨
        (∃ kv ∈ params, kv.1 ∈ numericParams ∧ Atoi kv.2 = .error err)) := by
    obtain ⟨kv, hkv, hkeq⟩ := List.mem_map.mp hk
    have hne : params.length ≠ 0 := by
      intro h0
      rw [List.length_eq_zero] at h0
      subst h0
      simp at hkv
    have hsplit := (not_congr (allowList_split k)).mp hbad
    simp only [not_or] at hsplit
    obtain ⟨hnage, hntext, hnpage, hnlimit⟩ := hsplit
    unfold usecase.GetPeople
    simp only [hne, if_false]
    cases hpag : resolvePagination params with
    | error e =>
      exact ⟨e, rfl, Or.inr (resolvePagination_error params e hpag)⟩
    | ok pagination =>
      have hin : kv ∈ mapDelete (mapDelete params "page") "limit" := by
        apply mem_mapDelete
        · apply mem_mapDelete _ _ _ hkv
          rw [hkeq]; exact hnpage
        · rw [hkeq]; exact hnlimit
      obtain ⟨err, he, hor⟩ := classifyParams_unknown
        (mapDelete (mapDelete params "page") "limit") [] ⟨kv, hin, by rw [hkeq]; exact hnage,
          by rw [hkeq]; exact hntext⟩
      refine ⟨err, ?_, ?_⟩
      · simp only [localFilters, he]
      · rcases hor with ⟨kv', hkv', h1, h2, h3⟩ | ⟨kv', hkv', h1, h2⟩
        · have hmem : kv' ∈ params :=
            mem_of_mem_mapDelete _ _ _ (mem_of_mem_mapDelete _ _ _ hkv')
          have hne1 : kv'.1 ≠ "limit" := by
            have := (List.mem_filter.mp hkv').2
            simpa using this
          have hne2 : kv'.1 ≠ "page" := by
            have := (List.mem_filter.mp (mem_of_mem_mapDelete _ _ _ hkv')).2
            simpa using this
          refine Or.inl ⟨kv'.1, List.mem_map.mpr ⟨kv', hmem, rfl⟩, ?_, h3⟩
          rw [allowList_split]
          simp only [not_or]
          exact ⟨h1, h2, hne2, hne1⟩
        · have hmem : kv' ∈ params :=
            mem_of_mem_mapDelete _ _ _ (mem_of_mem_mapDelete _ _ _ hkv')
          exact Or.inr ⟨kv', hmem, numericParams_of_ageFields _ h1, h2⟩
  obtain ⟨err, he, hor⟩ := main
  refine ⟨err, he, hor, ?_⟩
  intro hnum huniq
  rcases hor with ⟨k', hk', hbad', herr⟩ | ⟨kv, hkv, hn, ha⟩
  · rw [herr, huniq k' hk' hbad']
  · obtain ⟨n, hn'⟩ := hnum kv hkv hn
    rw [hn'] at ha
    cases ha

/-- Witness of C2 (amended) at the mapping `name = Ann, foo = 1`. -/
theorem GetPeople_unknown_param_witness :
    ∃ err, usecase.GetPeople [("name", "Ann"), ("foo", "1")] = .error err ∧
      ((∃ k' ∈ ([("name", "Ann"), ("foo", "1")] : GoMap String).map Prod.fst,
          k' ∉ queryAllowList ∧ err = .errorf ("invalid query param: " ++ k')) ∨
        (∃ kv ∈ ([("name", "Ann"), ("foo", "1")] : GoMap String),
          kv.1 ∈ numericParams ∧ Atoi kv.2 = .error err)) ∧
      ((∀ kv ∈ ([("name", "Ann"), ("foo", "1")] : GoMap String),
          kv.1 ∈ numericParams → ∃ n, Atoi kv.2 = .ok n) →
        (∀ k' ∈ ([("name", "Ann"), ("foo", "1")] : GoMap String).map Prod.fst,
          k' ∉ queryAllowList → k' = "foo") →
        err = .errorf ("invalid query param: " ++ "foo")) :=
  GetPeople_unknown_param [("name", "Ann"), ("foo", "1")] "foo" (by decide) (by decide)

/-- C3 (code defect): for the mapping `age = 30` the argument that reaches the store for
the `age` predicate is the text `30` of the parameter, not the integer 30 that `Atoi`
produced for the local filter map. -/
theorem GetPeople_age_argument_is_text :
    Atoi "30" = .ok 30 ∧
    localFilters [("age", "30")] = .ok [("age", .int 30)] ∧
    (usecase.GetPeople [("age", "30")]).map storeRequest =
      .ok ("SELECT * FROM people WHERE age = $1", [.str "30"]) ∧
    (usecase.GetPeople [("age", "30")]).map storeRequest ≠
      .ok ("SELECT * FROM people WHERE age = $1", [.int 30]) := by
  decide

/-! ## Lemmas on `Atoi` -/

theorem digitsValue_le : ∀ (cs : List Char) (n v : Nat), digitsValue cs n = some v → n ≤ v
  | [], n, v, h => by
    simp only [digitsValue, Option.some.injEq] at h
    omega
  | c :: cs, n, v, h => by
    unfold digitsValue at h
    by_cases hc : c.isDigit
    · simp only [hc, if_true] at h
      have := digitsValue_le cs _ v h
      omega
    · simp [hc] at h

theorem scanDigits_value : ∀ (cs : List Char) (n v : Nat), n ≤ 2 ^ 64 - 1 →
    (scanDigits cs n = .value v ↔ digitsValue cs n = some v ∧ v ≤ 2 ^ 64 - 1)
  | [], n, v, hn => by
    simp only [scanDigits, digitsValue, ScanResult.value.injEq, Option.some.injEq]
    constructor
    · intro h; subst h; exact ⟨rfl, hn⟩
    · intro h; exact h.1
  | c :: cs, n, v, hn => by
    unfold scanDigits digitsValue
    by_cases hc : c.isDigit
    · simp only [hc, if_true]
      by_cases hbig : n * 10 + (c.toNat - 48) > 2 ^ 64 - 1
      · simp only [hbig, if_true]
        constructor
        · intro h; cases h
        · intro h
          have := digitsValue_le cs _ v h.1
          omega
      · simp only [hbig, if_false]
        exact scanDigits_value cs _ v (by omega)
    · simp [hc]

theorem Atoi_ok_iff (s : String) (p : Int) :
    Atoi s = .ok p ↔ intNumeral? s = some p ∧ -(2 ^ 63) ≤ p ∧ p < 2 ^ 63 := by
  unfold Atoi intNumeral?
  cases s.data with
  | nil => simp
  | cons c cs =>
    simp only
    generalize (if (c == '-' || c == '+') = true then cs else c :: cs) = digits
    cases digits with
    | nil => simp
    | cons d ds =>
      simp only
      have key := fun v => scanDigits_value (d :: ds) 0 v (by omega)
      cases hdv : digitsValue (d :: ds) 0 with
      | none =>
        have hno : ∀ v, scanDigits (d :: ds) 0 ≠ .value v := by
          intro v hv
          have := ((key v).mp hv).1
          rw [hdv] at this
          cases this
        cases hscan : scanDigits (d :: ds) 0 with
        | badDigit => simp
        | tooLarge => simp
        | value un => exact absurd hscan (hno un)
      | some v =>
        by_cases hv : v ≤ 2 ^ 64 - 1
        · have hscan : scanDigits (d :: ds) 0 = .value v := (key v).mpr ⟨hdv, hv⟩
          rw [hscan]
          simp only [Option.map_some', Option.some.injEq, Int.ofNat_eq_coe]
          by_cases hneg : (c == '-') = true
          · simp only [hneg, if_true]
            by_cases h1 : v > 2 ^ 63
            · simp only [h1, if_true, reduceCtorEq, false_iff]
              intro h; omega
            · simp only [h1, if_false, Except.ok.injEq]
              constructor
              · intro h; omega
              · intro h; omega
          · simp only [hneg, if_false, Bool.false_eq_true]
            by_cases h1 : v ≥ 2 ^ 63
            · simp only [h1, if_true, reduceCtorEq, false_iff]
              intro h; omega
            · simp only [h1, if_false, Except.ok.injEq]
              constructor
              · intro h; omega
              · intro h; omega
        · have hno : ∀ u, scanDigits (d :: ds) 0 ≠ .value u := by
            intro u hu
            have h2 := (key u).mp hu
            rw [hdv] at h2
            have : v = u := by simpa using h2.1
            omega
          have hrhs : ¬ ((Option.map
              (fun n : Nat => if (c == '-') = true then -(Int.ofNat n) else Int.ofNat n)
              (some v)) = some p ∧ -(2 ^ 63) ≤ p ∧ p < 2 ^ 63) := by
            simp only [Option.map_some', Option.some.injEq, Int.ofNat_eq_coe]
            by_cases hneg : (c == '-') = true
            · simp only [hneg, if_true]; intro h; omega
            · simp only [hneg, if_false, Bool.false_eq_true]; intro h; omega
          cases hscan : scanDigits (d :: ds) 0 with
          | badDigit => simpa using hrhs
          | tooLarge => simpa using hrhs
          | value un => exact absurd hscan (hno un)

theorem Atoi_error_of_not_parsesTo (s : String) (h : ∀ p, ¬ parsesTo (some s) (some p)) :
    ∃ err, Atoi s = .error err := by
  cases ha : Atoi s with
  | error e => exact ⟨e, rfl⟩
  | ok p => exact absurd ((Atoi_ok_iff s p).mp ha) (h p)

theorem intMul_intSub_of_fits (page limit : Int)
    (h1 : -(2 ^ 63) ≤ page - 1 ∧ page - 1 < 2 ^ 63)
    (h2 : -(2 ^ 63) ≤ (page - 1) * limit ∧ (page - 1) * limit < 2 ^ 63) :
    intMul (intSub page 1) limit = (page - 1) * limit := by
  have hw : ∀ x : Int, -(2 ^ 63) ≤ x → x < 2 ^ 63 → wrapInt x = x := by
    intro x hx1 hx2
    unfold wrapInt
    omega
  unfold intMul intSub
  rw [hw _ h1.1 h1.2, hw _ h2.1 h2.2]

/-! ## Lemmas on `GetPeopleWithFilters` -/

theorem filterStep_counter (st : String × List FilterValue × Nat) (kv : String × FilterValue) :
    (filterStep st kv).2.2 = st.2.2 + 1 := by
  obtain ⟨query, args, id⟩ := st
  unfold filterStep
  simp only
  split_ifs <;> rfl

theorem foldl_filterStep_counter :
    ∀ (fs : GoMap FilterValue) (st : String × List FilterValue × Nat),
      (fs.foldl filterStep st).2.2 = st.2.2 + fs.length
  | [], st => by simp
  | kv :: rest, st => by
    rw [List.foldl_cons, foldl_filterStep_counter rest, filterStep_counter, List.length_cons]
    omega

theorem GetPeopleWithFilters_pagination (fs : GoMap FilterValue) (pag : GoMap Int)
    (hpag : pag ≠ []) :
    postgresRepository.GetPeopleWithFilters fs pag =
      withLimitOffset (postgresRepository.GetPeopleWithFilters fs []) fs.length
        (some ((pag.lookup "limit").getD 0,
          intMul (intSub ((pag.lookup "page").getD 0) 1) ((pag.lookup "limit").getD 0))) := by
  have hlen : pag.length ≠ 0 := by
    intro h; exact hpag (List.length_eq_zero.mp h)
  unfold postgresRepository.GetPeopleWithFilters withLimitOffset
  by_cases hfs : fs.length ≠ 0
  · simp only [hfs, hlen, if_true, ne_eq, not_false_eq_true, List.length_nil, not_true_eq_false,
      if_false, foldl_filterStep_counter]
    rw [Nat.add_comm 1 fs.length]
  · have h0 : fs.length = 0 := by omega
    simp only [h0, hlen, if_true, ne_eq, not_false_eq_true, List.length_nil, not_true_eq_false,
      if_false]

/-! ## Claim on pagination -/

/-- C4 (counterexample): `page = 99999999999999999999` is an integer numeral, yet
`GetPeople` fails and no query is made; and for `page = 4611686018427387905, limit = 4`
the offset that reaches the store is 0, not `(p - 1) * l = 2^64`. -/
theorem pagination_not_as_stated :
    ¬ PaginationAsStated [("page", "99999999999999999999")] ∧
    ¬ PaginationAsStated [("page", "4611686018427387905"), ("limit", "4")] := by
  constructor
  · intro h
    obtain ⟨filters, pag, hcall, -⟩ := h 99999999999999999999 (by decide)
    revert hcall
    have e : usecase.GetPeople [("page", "99999999999999999999")] =
        .error (.atoiRange "99999999999999999999") := by decide
    rw [e]
    intro hcall
    cases hcall
  · intro h
    obtain ⟨filters, pag, hcall, hargs⟩ := h 4611686018427387905 (by decide)
    have e : usecase.GetPeople [("page", "4611686018427387905"), ("limit", "4")] =
        .ok (.GetPeopleWithFilters [] [("page", 4611686018427387905), ("limit", 4)]) := by
      decide
    rw [e] at hcall
    simp only [Except.ok.injEq, RepoCall.GetPeopleWithFilters.injEq] at hcall
    obtain ⟨hf, hp⟩ := hcall
    subst hf
    subst hp
    have h4 := hargs 4 (by show intNumeral? "4" = some 4; decide)
    revert h4
    decide

/-- C4 (amended): pagination of `GetPeople` followed by `GetPeopleWithFilters`.  The empty
mapping is listed without filters.  For a non-empty mapping in which `page` and `limit`,
when present, are integer numerals that denote `p` and `l` in the range of Go `int`,
`GetPeople` fails only through its other parameters, and otherwise the query is the one
without pagination followed by the `LIMIT`/`OFFSET` clause with the arguments of
`expectedPagination`: `l` and `(p - 1) * l`, `10` and `(p - 1) * 10`, `l` and `0`, or no
clause, the products taken in the arithmetic of Go `int`, where they are the products of
the integers whenever these fit.  A `page` or `limit` that is not such a numeral makes
`GetPeople` fail before any repository call. -/
theorem GetPeople_pagination (params : GoMap String) :
    (params = [] → usecase.GetPeople params = .ok .GetAllPeople) ∧
    (params ≠ [] → ∀ page limit : Option Int,
      parsesTo (params.lookup "page") page → parsesTo (params.lookup "limit") limit →
      ∃ pag, usecase.GetPeople params =
          (localFilters params).map
            (fun _ => RepoCall.GetPeopleWithFilters (strippedParams params) pag) ∧
        ∀ filters, postgresRepository.GetPeopleWithFilters filters pag =
          withLimitOffset (postgresRepository.GetPeopleWithFilters filters []) filters.length
            (expectedPagination page limit)) ∧
    (∀ key s, key = "page" ∨ key = "limit" → params.lookup key = some s →
      (∀ p, ¬ parsesTo (some s) (some p)) → ∃ err, usecase.GetPeople params = .error err) ∧
    (∀ p l : Int, (-(2 ^ 63) ≤ p - 1 ∧ p - 1 < 2 ^ 63) →
      (-(2 ^ 63) ≤ (p - 1) * l ∧ (p - 1) * l < 2 ^ 63) →
      expectedPagination (some p) (some l) = some (l, (p - 1) * l)) := by
  refine ⟨?_, ?_, ?_, ?_⟩
  rotate_right
  · intro p l h1 h2
    simp only [expectedPagination, intMul_intSub_of_fits p l h1 h2]
  · intro h
    subst h
    rfl
  · intro hne page limit hp hl
    have hlen : params.length ≠ 0 := by
      intro h; exact hne (List.length_eq_zero.mp h)
    have hmap : ∀ pag : GoMap Int,
        (match localFilters params with
          | .error err => (Except.error err : Except GoError RepoCall)
          | .ok _ => .ok (.GetPeopleWithFilters (strippedParams params) pag)) =
        (localFilters params).map
          (fun _ => RepoCall.GetPeopleWithFilters (strippedParams params) pag) := by
      intro pag
      cases localFilters params <;> rfl
    unfold usecase.GetPeople resolvePagination
    simp only [hlen, if_false]
    cases hlp : params.lookup "page" with
    | none =>
      rw [hlp] at hp
      cases page with
      | some p => exact absurd hp (by simp [parsesTo])
      | none =>
        cases hll : params.lookup "limit" with
        | none =>
          rw [hll] at hl
          cases limit with
          | some l => exact absurd hl (by simp [parsesTo])
          | none =>
            refine ⟨[], hmap [], ?_⟩
            intro filters
            rfl
        | some ls =>
          rw [hll] at hl
          cases limit with
          | none => exact absurd hl (by simp [parsesTo])
          | some l =>
            have hal : Atoi ls = .ok l := (Atoi_ok_iff ls l).mpr hl
            simp only [hal]
            refine ⟨[("page", 1), ("limit", l)], hmap _, ?_⟩
            intro filters
            rw [GetPeopleWithFilters_pagination _ _ (by simp)]
            simp [expectedPagination, List.lookup, intSub, intMul, wrapInt]
    | some ps =>
      rw [hlp] at hp
      cases page with
      | none => exact absurd hp (by simp [parsesTo])
      | some p =>
        have hap : Atoi ps = .ok p := (Atoi_ok_iff ps p).mpr hp
        simp only [hap]
        cases hll : params.lookup "limit" with
        | none =>
          rw [hll] at hl
          cases limit with
          | some l => exact absurd hl (by simp [parsesTo])
          | none =>
            refine ⟨[("page", p), ("limit", 10)], hmap _, ?_⟩
            intro filters
            rw [GetPeopleWithFilters_pagination _ _ (by simp)]
            simp [expectedPagination, List.lookup]
        | some ls =>
          rw [hll] at hl
          cases limit with
          | none => exact absurd hl (by simp [parsesTo])
          | some l =>
            have hal : Atoi ls = .ok l := (Atoi_ok_iff ls l).mpr hl
            simp only [hal]
            refine ⟨[("page", p), ("limit", l)], hmap _, ?_⟩
            intro filters
            rw [GetPeopleWithFilters_pagination _ _ (by simp)]
            simp [expectedPagination, List.lookup]
  · intro key s hkey hlk hbad
    obtain ⟨e, he⟩ := Atoi_error_of_not_parsesTo s hbad
    have hlen : params.length ≠ 0 := by
      intro h
      rw [List.length_eq_zero] at h
      subst h
      simp at hlk
    unfold usecase.GetPeople resolvePagination
    simp only [hlen, if_false]
    rcases hkey with rfl | rfl
    · simp only [hlk, he]
      exact ⟨e, rfl⟩
    · cases hlp : params.lookup "page" with
      | none =>
        simp only [hlk, he]
        exact ⟨e, rfl⟩
      | some ps =>
        cases hap : Atoi ps with
        | error e2 =>
          simp only [hap]
          exact ⟨e2, rfl⟩
        | ok p =>
          simp only [hap, hlk, he]
          exact ⟨e, rfl⟩

/-- Witness of C4 (amended): the mapping `page = 2, limit = 5` resolves to limit 5 and
offset 5. -/
theorem GetPeople_pagination_witness :
    expectedPagination (some 2) (some 5) = some (5, 5) ∧
    ∃ pag, usecase.GetPeople [("page", "2"), ("limit", "5")] =
        (localFilters [("page", "2"), ("limit", "5")]).map
          (fun _ => RepoCall.GetPeopleWithFilters
            (strippedParams [("page", "2"), ("limit", "5")]) pag) ∧
      ∀ filters, postgresRepository.GetPeopleWithFilters filters pag =
        withLimitOffset (postgresRepository.GetPeopleWithFilters filters []) filters.length
          (expectedPagination (some 2) (some 5)) :=
  ⟨by decide, (GetPeople_pagination [("page", "2"), ("limit", "5")]).2.1 (by decide)
    (some 2) (some 5) ⟨by decide, by decide, by decide⟩ ⟨by decide, by decide, by decide⟩⟩

/-! ## The query text -/

theorem trimSuffix_append (s suffix : String) : trimSuffix (s ++ suffix) suffix = s := by
  unfold trimSuffix
  have hs : suffix.data <:+ s.data ++ suffix.data := List.suffix_append _ _
  simp only [hs, if_true, String.data_append, List.length_append, Nat.add_sub_cancel,
    List.take_left']

theorem intercalate_go_append (sep : String) :
    ∀ (xs : List String) (acc x : String),
      String.intercalate.go (acc ++ x) sep xs = acc ++ String.intercalate.go x sep xs
  | [], acc, x => by simp [String.intercalate.go]
  | a :: rest, acc, x => by
    simp only [String.intercalate.go]
    rw [← intercalate_go_append sep rest acc (x ++ sep ++ a)]
    simp only [String.append_assoc]

theorem intercalate_cons_cons (sep a b : String) (rest : List String) :
    sep.intercalate (a :: b :: rest) = a ++ sep ++ sep.intercalate (b :: rest) := by
  simp only [String.intercalate, String.intercalate.go]
  rw [intercalate_go_append]

theorem andText_eq_intercalate :
    ∀ (c : String) (cs : List String),
      andText (c :: cs) = " AND ".intercalate (c :: cs) ++ " AND "
  | c, [] => by simp [andText, String.intercalate, String.intercalate.go]
  | c, d :: rest => by
    rw [intercalate_cons_cons, andText, andText_eq_intercalate d rest]
    simp only [String.append_assoc]

theorem filterStep_valid (query : String) (args : List FilterValue) (i : Nat)
    (kv : String × FilterValue) (h : kv.1 ∈ filterKeys) :
    filterStep (query, args, i) kv =
      (query ++ (predicate kv.1 i ++ " AND "), args ++ [argument kv], i + 1) := by
  obtain ⟨k, v⟩ := kv
  simp only [filterKeys, List.mem_cons, List.mem_singleton, List.mem_nil_iff, or_false] at h
  rcases h with rfl | rfl | rfl | rfl | rfl | rfl | rfl | rfl <;>
    simp [filterStep, predicate, argument, textFields]

theorem foldl_filterStep_valid :
    ∀ (fs : GoMap FilterValue) (query : String) (args : List FilterValue) (i : Nat),
      (∀ kv ∈ fs, kv.1 ∈ filterKeys) →
      fs.foldl filterStep (query, args, i) =
        (query ++ andText (predicates (fs.map Prod.fst) i), args ++ fs.map argument,
          i + fs.length)
  | [], query, args, i, _ => by
    simp [predicates, andText]
  | kv :: rest, query, args, i, h => by
    rw [List.foldl_cons, filterStep_valid query args i kv (h kv (List.mem_cons_self _ _)),
      foldl_filterStep_valid rest _ _ _ (fun x hx => h x (List.mem_cons_of_mem _ hx))]
    simp only [List.map_cons, predicates, andText, String.append_assoc, List.append_assoc,
      List.singleton_append, List.length_cons, Prod.mk.injEq, true_and]
    omega

theorem predicates_getElem? :
    ∀ (keys : List String) (start i : Nat) (k : String), keys[i]? = some k →
      (predicates keys start)[i]? = some (predicate k (start + i))
  | [], _, _, _, h => by simp at h
  | key :: rest, start, 0, k, h => by
    simp only [List.getElem?_cons_zero, Option.some.injEq] at h
    subst h
    simp [predicates]
  | key :: rest, start, i + 1, k, h => by
    simp only [List.getElem?_cons_succ] at h
    simp only [predicates, List.getElem?_cons_succ]
    rw [predicates_getElem? rest (start + 1) i k h]
    congr 2
    omega

theorem GetPeopleWithFilters_eq (filters : GoMap FilterValue) (pagination : GoMap Int)
    (h : ∀ kv ∈ filters, kv.1 ∈ filterKeys) :
    postgresRepository.GetPeopleWithFilters filters pagination =
      (expectedQuery (filters.map Prod.fst) (decide (pagination ≠ [])),
        expectedArgs filters pagination) := by
  have hbase : postgresRepository.GetPeopleWithFilters filters [] =
      (expectedQuery (filters.map Prod.fst) false, filters.map argument) := by
    unfold postgresRepository.GetPeopleWithFilters expectedQuery
    cases filters with
    | nil => simp
    | cons kv rest =>
      simp only [List.length_cons, ne_eq, Nat.add_one_ne_zero, not_false_eq_true, if_true,
        foldl_filterStep_valid (kv :: rest) _ _ _ h, List.map_cons, predicates, List.length_nil,
        not_true_eq_false, if_false, List.nil_append, reduceCtorEq, Bool.false_eq_true,
        String.append_empty]
      rw [andText_eq_intercalate, ← String.append_assoc, trimSuffix_append,
        String.append_assoc]
  by_cases hp : pagination = []
  · subst hp
    rw [hbase]
    simp [expectedArgs]
  · rw [GetPeopleWithFilters_pagination _ _ hp, hbase]
    simp only [withLimitOffset, expectedQuery, expectedArgs, hp, ne_eq, not_false_eq_true,
      decide_True, if_true, if_false, List.length_map, String.append_empty, Bool.false_eq_true]

/-! ## Claim on the query builder -/

/-- C5 (counterexample): with no filter and the pagination `page = 4611686018427387905,
limit = 4` the offset argument is 0, since the product `(page-1)*limit = 2^64` wraps in
Go `int`; the argument list as written holds `2^64`. -/
theorem offset_wraps :
    (postgresRepository.GetPeopleWithFilters [] [("page", 4611686018427387905), ("limit", 4)]).2 =
      [.int 4, .int 0] ∧
    statedArgs [] [("page", 4611686018427387905), ("limit", 4)] =
      [.int 4, .int 18446744073709551616] ∧
    (postgresRepository.GetPeopleWithFilters [] [("page", 4611686018427387905), ("limit", 4)]).2 ≠
      statedArgs [] [("page", 4611686018427387905), ("limit", 4)] := by
  decide

/-- C5 (amended): for a filter set whose keys are among the eight filter names, visited in list
order, and any pagination map, `GetPeopleWithFilters` sends exactly the query
`SELECT * FROM people`, then ` WHERE c1 AND ... AND cn` iff there are filters, then
` LIMIT $(n+1) OFFSET $(n+2)` iff the pagination map is not empty, with the argument list
`a1 .. an` followed by `limit, (page-1)*limit`, the product in the arithmetic of Go `int`
(the product of the integers whenever it fits); the i-th predicate carries placeholder `i` and the i-th argument is the one of the i-th
filter; the query text depends on the keys only, never on a value. -/
theorem GetPeopleWithFilters_query (filters : GoMap FilterValue) (pagination : GoMap Int)
    (h : ∀ kv ∈ filters, kv.1 ∈ filterKeys) :
    postgresRepository.GetPeopleWithFilters filters pagination =
      (expectedQuery (filters.map Prod.fst) (decide (pagination ≠ [])),
        expectedArgs filters pagination) ∧
    (∀ i kv, filters[i]? = some kv →
      (predicates (filters.map Prod.fst) 1)[i]? = some (predicate kv.1 (i + 1)) ∧
      (postgresRepository.GetPeopleWithFilters filters pagination).2[i]? =
        some (argument kv)) ∧
    (∀ filters' : GoMap FilterValue, filters'.map Prod.fst = filters.map Prod.fst →
      (postgresRepository.GetPeopleWithFilters filters' pagination).1 =
        (postgresRepository.GetPeopleWithFilters filters pagination).1) ∧
    ((-(2 ^ 63) ≤ (pagination.lookup "page").getD 0 - 1 ∧
        (pagination.lookup "page").getD 0 - 1 < 2 ^ 63) →
      (-(2 ^ 63) ≤ ((pagination.lookup "page").getD 0 - 1) * (pagination.lookup "limit").getD 0 ∧
        ((pagination.lookup "page").getD 0 - 1) * (pagination.lookup "limit").getD 0 < 2 ^ 63) →
      expectedArgs filters pagination = statedArgs filters pagination) := by
  refine ⟨GetPeopleWithFilters_eq filters pagination h, ?_, ?_, ?_⟩
  rotate_right
  · intro h1 h2
    simp only [expectedArgs, statedArgs, intMul_intSub_of_fits _ _ h1 h2]
  · intro i kv hi
    constructor
    · have hk : (filters.map Prod.fst)[i]? = some kv.1 := by
        simp [List.getElem?_map, hi]
      rw [predicates_getElem? _ 1 i kv.1 hk, Nat.add_comm]
    · rw [GetPeopleWithFilters_eq filters pagination h]
      simp only [expectedArgs]
      have hlt : i < (filters.map argument).length := by
        rw [List.length_map]
        exact (List.getElem?_eq_some_iff.mp hi).1
      rw [List.getElem?_append_left hlt, List.getElem?_map, hi]
      rfl
  · intro filters' hkeys
    have h' : ∀ kv ∈ filters', kv.1 ∈ filterKeys := by
      intro kv hkv
      have : kv.1 ∈ filters'.map Prod.fst := List.mem_map.mpr ⟨kv, hkv, rfl⟩
      rw [hkeys] at this
      obtain ⟨kv2, hkv2, heq⟩ := List.mem_map.mp this
      rw [← heq]
      exact h kv2 hkv2
    rw [GetPeopleWithFilters_eq filters pagination h,
      GetPeopleWithFilters_eq filters' pagination h', hkeys]

/-- Witness of C5 (amended): the filters `name = Ann` and `minAge = 18` with page 2 of size 5. -/
theorem GetPeopleWithFilters_query_witness :
    postgresRepository.GetPeopleWithFilters [("name", .str "Ann"), ("minAge", .int 18)]
        [("page", 2), ("limit", 5)] =
      ("SELECT * FROM people WHERE name ILIKE $1 AND age >= $2 LIMIT $3 OFFSET $4",
        [.str "%Ann%", .int 18, .int 5, .int 5]) ∧
    postgresRepository.GetPeopleWithFilters [("name", .str "Ann"), ("minAge", .int 18)]
        [("page", 2), ("limit", 5)] =
      (expectedQuery (([("name", .str "Ann"), ("minAge", .int 18)] :
          GoMap FilterValue).map Prod.fst) (decide (([("page", 2), ("limit", 5)] : GoMap Int) ≠ [])),
        expectedArgs [("name", .str "Ann"), ("minAge", .int 18)] [("page", 2), ("limit", 5)]) :=
  ⟨by decide, (GetPeopleWithFilters_query [("name", .str "Ann"), ("minAge", .int 18)]
    [("page", 2), ("limit", 5)] (by decide)).1⟩

/-! ## Claims on creation -/

theorem validateFields_some_iff :
    ∀ data : GoMap GoValue,
      (validateFields data).isSome = true ↔ ∃ kv ∈ data, kv.1 ∉ allowedFields
  | [] => by simp [validateFields]
  | (field, value) :: rest => by
    unfold validateFields
    by_cases hf : field ∈ allowedFields
    · simp only [hf, if_true, validateFields_some_iff rest, List.mem_cons]
      constructor
      · rintro ⟨kv, hkv, hbad⟩
        exact ⟨kv, Or.inr hkv, hbad⟩
      · rintro ⟨kv, hkv | hkv, hbad⟩
        · subst hkv
          exact absurd hf hbad
        · exact ⟨kv, hkv, hbad⟩
    · simp only [hf, if_false, Option.isSome_some, true_iff]
      exact ⟨(field, value), List.mem_cons_self _ _, hf⟩

theorem validateFields_names_field :
    ∀ (data : GoMap GoValue) (err : GoError), validateFields data = some err →
      ∃ kv ∈ data, kv.1 ∉ allowedFields ∧ err = .errorf ("invalid field: " ++ kv.1)
  | [], err, h => by simp [validateFields] at h
  | (field, value) :: rest, err, h => by
    unfold validateFields at h
    by_cases hf : field ∈ allowedFields
    · simp only [hf, if_true] at h
      obtain ⟨kv, hkv, hbad, he⟩ := validateFields_names_field rest err h
      exact ⟨kv, List.mem_cons_of_mem _ hkv, hbad, he⟩
    · simp only [hf, if_false, Option.some.injEq] at h
      exact ⟨(field, value), List.mem_cons_self _ _, hf, h.symm⟩

/-- C6: `validateFields` fails exactly on the payloads that hold a field name outside the
six allowed names (so on every payload that holds `id`); its error names such a field
of the payload; and whenever it fails, `CreatePerson` and `UpdatePerson` return that
error having made no call at all: none to the store, none to a provider. -/
theorem validateFields_rejects_unknown (W : Providers) (S : Store) (id : Int)
    (data : GoMap GoValue) :
    ((validateFields data).isSome = true ↔ ∃ kv ∈ data, kv.1 ∉ allowedFields) ∧
    ("id" ∈ data.map Prod.fst → (validateFields data).isSome = true) ∧
    (∀ err, validateFields data = some err →
      (∃ kv ∈ data, kv.1 ∉ allowedFields ∧ err = .errorf ("invalid field: " ++ kv.1)) ∧
      usecase.CreatePerson W S data = ([], .error err) ∧
      usecase.UpdatePerson S id data = ([], some err)) := by
  refine ⟨validateFields_some_iff data, ?_, ?_⟩
  · intro hid
    obtain ⟨kv, hkv, hk⟩ := List.mem_map.mp hid
    refine (validateFields_some_iff data).mpr ⟨kv, hkv, ?_⟩
    rw [hk]
    decide
  · intro err herr
    refine ⟨validateFields_names_field data err herr, ?_, ?_⟩
    · simp only [usecase.CreatePerson, herr]
    · simp only [usecase.UpdatePerson, herr]

/-- Witness of C6: the payload with the single field `unknown_field`. -/
theorem validateFields_rejects_unknown_witness :
    validateFields [("unknown_field", .string "x")] =
      some (.errorf "invalid field: unknown_field") ∧
    usecase.CreatePerson offlineProviders acceptingStore [("unknown_field", .string "x")] =
      ([], .error (.errorf "invalid field: unknown_field")) ∧
    usecase.UpdatePerson acceptingStore 7 [("unknown_field", .string "x")] =
      ([], some (.errorf "invalid field: unknown_field")) :=
  ⟨by decide,
    ((validateFields_rejects_unknown offlineProviders acceptingStore 7
      [("unknown_field", .string "x")]).2.2 _ (by decide)).2⟩

/-- C7 (counterexample): the payload with the single field `unknown_field` fails
validation, and the handler answers 500, not 400. -/
theorem validation_failure_is_500 :
    ¬ ValidationFailureIs400 offlineProviders acceptingStore [("unknown_field", .string "x")] := by
  intro h
  obtain ⟨body, hb⟩ := h (Or.inl (by decide))
  have e : (Delivery.CreatePerson offlineProviders acceptingStore
      (.ok [("unknown_field", .string "x")])).2 =
      some (500, .error (.errorf "invalid field: unknown_field")) := rfl
  rw [e] at hb
  simp at hb

/-- C7 (amended): the status of the `POST /people` handler.  It is 400 exactly when the
body cannot be bound.  Every error of `usecase.CreatePerson` gives 500 with that error:
a store failure, and also a payload that fails validation (unknown field name) or
mapping (wrong type), in which case no call has been made.  Success gives 201 with the
new id. -/
theorem CreatePerson_status (W : Providers) (S : Store)
    (bound : Except GoError (GoMap GoValue)) :
    (∀ body, (Delivery.CreatePerson W S bound).2 = some (400, body) ↔
      ∃ err, bound = .error err ∧ body = .error err) ∧
    (∀ params, bound = .ok params →
      (∀ err, (usecase.CreatePerson W S params).2 = .error err →
        (Delivery.CreatePerson W S bound).2 = some (500, .error err)) ∧
      (∀ id, (usecase.CreatePerson W S params).2 = .ok id →
        (Delivery.CreatePerson W S bound).2 = some (201, .id id)) ∧
      (∀ err, validateFields params = some err →
        Delivery.CreatePerson W S bound = ([], some (500, .error err))) ∧
      (∀ err, validateFields params = none → Person.MapToPerson {} params = .error err →
        Delivery.CreatePerson W S bound = ([], some (500, .error err)))) := by
  constructor
  · intro body
    cases bound with
    | error err =>
      simp only [Delivery.CreatePerson, Option.some.injEq, Prod.mk.injEq, true_and,
        Except.error.injEq]
      constructor
      · intro h; exact ⟨err, rfl, h.symm⟩
      · rintro ⟨e, he, hb⟩; rw [hb, he]
    | ok params =>
      simp only [Delivery.CreatePerson, reduceCtorEq, false_and, exists_false, iff_false]
      rcases hu : usecase.CreatePerson W S params with ⟨calls, out⟩
      cases out <;> simp
  · intro params hb
    subst hb
    refine ⟨?_, ?_, ?_, ?_⟩
    · intro err h
      rcases hu : usecase.CreatePerson W S params with ⟨calls, out⟩
      rw [hu] at h
      simp only at h
      subst h
      simp only [Delivery.CreatePerson, hu]
    · intro id h
      rcases hu : usecase.CreatePerson W S params with ⟨calls, out⟩
      rw [hu] at h
      simp only at h
      subst h
      simp only [Delivery.CreatePerson, hu]
    · intro err h
      simp only [Delivery.CreatePerson, usecase.CreatePerson, h]
    · intro err h1 h2
      simp only [Delivery.CreatePerson, usecase.CreatePerson, h1, h2]

/-- Witness of C7 (amended): the payload with the single field `unknown_field` is
answered with 500 and no call is made. -/
theorem CreatePerson_status_witness :
    Delivery.CreatePerson offlineProviders acceptingStore
        (.ok [("unknown_field", .string "x")]) =
      ([], some (500, .error (.errorf "invalid field: unknown_field"))) :=
  ((CreatePerson_status offlineProviders acceptingStore
    (.ok [("unknown_field", .string "x")])).2 _ rfl).2.2.1 _ (by decide)

/-! ## Claims on mapping and enrichment -/

/-- C8 (code defect): a payload decoded from JSON never holds a Go `int`, so the type
assertion `value.(int)` of the case `age` fails: every JSON payload that carries `age`
is rejected by `MapToPerson`, whatever the other fields are. -/
theorem MapToPerson_rejects_json_age :
    ∀ (data : GoMap GoValue) (person : Person),
      (∀ kv ∈ data, kv.2.jsonDecoded = true) → "age" ∈ data.map Prod.fst →
      ∃ err, Person.MapToPerson person data = .error err
  | [], _, _, hage => by simp at hage
  | (key, value) :: rest, person, hjson, hage => by
    have hv : value.jsonDecoded = true := hjson (key, value) (List.mem_cons_self _ _)
    have hrest : key ≠ "age" → ∀ p, ∃ err, Person.MapToPerson p rest = .error err := by
      intro hne p
      apply MapToPerson_rejects_json_age rest p
        (fun kv hkv => hjson kv (List.mem_cons_of_mem _ hkv))
      simp only [List.map_cons, List.mem_cons] at hage
      rcases hage with h | h
      · exact absurd h.symm hne
      · exact h
    unfold Person.MapToPerson
    split_ifs with h1 h2 h3 h4 h5 h6
    · cases value <;> first | exact ⟨_, rfl⟩ | exact hrest (by rw [h1]; decide) _
    · cases value <;> first | exact ⟨_, rfl⟩ | exact hrest (by rw [h2]; decide) _
    · cases value <;> first | exact ⟨_, rfl⟩ | exact hrest (by rw [h3]; decide) _
    · cases value <;> first | exact ⟨_, rfl⟩ | simp [GoValue.jsonDecoded] at hv
    · cases value <;> first | exact ⟨_, rfl⟩ | exact hrest (by rw [h5]; decide) _
    · cases value <;> first | exact ⟨_, rfl⟩ | exact hrest (by rw [h6]; decide) _
    · exact ⟨_, rfl⟩

/-- Witness of C8: the payload `name = Alice, age = 30` as the JSON decoder delivers it
passes `validateFields` and is rejected by `MapToPerson` with the error of the field
`age`; the same payload with a Go `int` is mapped. -/
theorem MapToPerson_rejects_json_age_witness :
    validateFields [("name", .string "Alice"), ("age", .float64 30)] = none ∧
    Person.MapToPerson {} [("name", .string "Alice"), ("age", .float64 30)] =
      .error (.errorf "Ошибка в поле 'age'") ∧
    Person.MapToPerson {} [("name", .string "Alice"), ("age", .int 30)] =
      .ok { Name := "Alice", Age := 30 } ∧
    ∃ err, Person.MapToPerson {} [("name", .string "Alice"), ("age", .float64 30)] =
      .error err :=
  ⟨by decide, by decide, by decide,
    MapToPerson_rejects_json_age [("name", .string "Alice"), ("age", .float64 30)] {}
      (by simp [GoValue.jsonDecoded]) (by decide)⟩

theorem getNationality_of_not_panics (W : Providers) (name : String)
    (h : nationalityPanics (W.get (nationalizeAPI name)) = false) :
    (getNationality W name).2 =
      some ((nationalityOutcome (W.get (nationalizeAPI name))).getD "") := by
  unfold getNationality
  unfold nationalityPanics at h
  simp only
  cases hr : W.get (nationalizeAPI name) with
  | transportError => rfl
  | readError => rfl
  | unmarshalError => rfl
  | decoded m =>
    rw [hr] at h
    simp only [nationalityOutcome] at h ⊢
    cases hc : m.lookup "country" with
    | none => rfl
    | some v =>
      rw [hc] at h
      cases v with
      | array xs =>
        cases xs with
        | nil => rfl
        | cons first rest =>
          cases first with
          | object info =>
            simp only
            cases hi : info.lookup "country_id" with
            | none => rfl
            | some c => cases c <;> rfl
          | _ => simp at h
      | _ => rfl

theorem getAge_eq (W : Providers) (name : String) :
    (getAge W name).2 = (ageOutcome (W.get (agifyAPI name))).getD 0 := by
  unfold getAge ageOutcome
  simp only
  cases W.get (agifyAPI name) with
  | decoded m =>
    simp only
    cases m.lookup "age" with
    | none => rfl
    | some v => cases v <;> rfl
  | _ => rfl

theorem getGender_eq (W : Providers) (name : String) :
    (getGender W name).2 = (genderOutcome (W.get (genderizeAPI name))).getD "" := by
  unfold getGender genderOutcome
  simp only
  cases W.get (genderizeAPI name) with
  | decoded m =>
    simp only
    cases m.lookup "gender" with
    | none => rfl
    | some v => cases v <;> rfl
  | _ => rfl

/-- The merge of `enrichPersonData` on the replies on which `getNationality` returns: for
a person with a non-empty name it makes the three GET calls and sets age, gender and
nationality each to the value of its own provider, or to `0`, `""`, `""` when that
provider fails; `ID`, `Name`, `Surname` and `Patronymic` are unchanged and the former
attributes are overwritten.  `CreatePerson` then makes the store call with the enriched
person and returns what the store returns. -/
theorem enrichPersonData_merges (W : Providers) (person : Person)
    (hname : person.Name ≠ "")
    (hreply : nationalityPanics (W.get (nationalizeAPI person.Name)) = false) :
    enrichPersonData W person =
      ([.httpGet (agifyAPI person.Name), .httpGet (genderizeAPI person.Name),
          .httpGet (nationalizeAPI person.Name)],
        some { person with
          Age := (ageOutcome (W.get (agifyAPI person.Name))).getD 0,
          Gender := (genderOutcome (W.get (genderizeAPI person.Name))).getD "",
          Nationality := (nationalityOutcome (W.get (nationalizeAPI person.Name))).getD "" }) ∧
    ∀ (S : Store) (params : GoMap GoValue), validateFields params = none →
      Person.MapToPerson {} params = .ok person →
      ∃ enriched, enrichPersonData W person = ([.httpGet (agifyAPI person.Name),
          .httpGet (genderizeAPI person.Name), .httpGet (nationalizeAPI person.Name)],
          some enriched) ∧
        usecase.CreatePerson W S params =
          ([.httpGet (agifyAPI person.Name), .httpGet (genderizeAPI person.Name),
              .httpGet (nationalizeAPI person.Name), .repoCreatePerson enriched],
            match S.CreatePerson enriched with
            | .ok id => .ok id
            | .error err => .error err) := by
  have henrich : enrichPersonData W person =
      ([.httpGet (agifyAPI person.Name), .httpGet (genderizeAPI person.Name),
          .httpGet (nationalizeAPI person.Name)],
        some { person with
          Age := (ageOutcome (W.get (agifyAPI person.Name))).getD 0,
          Gender := (genderOutcome (W.get (genderizeAPI person.Name))).getD "",
          Nationality := (nationalityOutcome (W.get (nationalizeAPI person.Name))).getD "" }) := by
    unfold enrichPersonData
    simp only [hname, ne_eq, not_false_eq_true, if_true,
      getNationality_of_not_panics W person.Name hreply, getAge_eq, getGender_eq]
    rfl
  refine ⟨henrich, ?_⟩
  intro S params hvalid hmap
  refine ⟨_, henrich, ?_⟩
  simp only [usecase.CreatePerson, hvalid, hmap, henrich]
  rfl

/-- The merge at the name `Alice` with the gender provider out of reach: age 30 and
nationality `US` are set, the gender is empty, and the creation returns the id of
the store. -/
theorem enrichPersonData_merges_witness :
    enrichPersonData aliceProviders { Name := "Alice", Gender := "x" } =
      ([.httpGet "https://api.agify.io/?name=Alice",
          .httpGet "https://api.genderize.io/?name=Alice",
          .httpGet "https://api.nationalize.io/?name=Alice"],
        some { Name := "Alice", Age := 30, Gender := "", Nationality := "US" }) ∧
    usecase.CreatePerson aliceProviders acceptingStore [("name", .string "Alice")] =
      ([.httpGet "https://api.agify.io/?name=Alice",
          .httpGet "https://api.genderize.io/?name=Alice",
          .httpGet "https://api.nationalize.io/?name=Alice",
          .repoCreatePerson { Name := "Alice", Age := 30, Gender := "", Nationality := "US" }],
        .ok 1) ∧
    ∃ enriched, enrichPersonData aliceProviders { Name := "Alice" } =
        ([.httpGet (agifyAPI "Alice"), .httpGet (genderizeAPI "Alice"),
          .httpGet (nationalizeAPI "Alice")], some enriched) ∧
      usecase.CreatePerson aliceProviders acceptingStore [("name", .string "Alice")] =
        ([.httpGet (agifyAPI "Alice"), .httpGet (genderizeAPI "Alice"),
            .httpGet (nationalizeAPI "Alice"), .repoCreatePerson enriched],
          match acceptingStore.CreatePerson enriched with
          | .ok id => .ok id
          | .error err => .error err) :=
  ⟨by rfl, by rfl,
    (enrichPersonData_merges aliceProviders { Name := "Alice" } (by decide) (by rfl)).2
      acceptingStore [("name", .string "Alice")] (by decide) (by decide)⟩

/-- On a reply singled out by `nationalityPanics`, `enrichPersonData` ends in the panic
of `getNationality` after the three GET calls, whatever the other two providers
answer, and `CreatePerson` makes no store call. -/
theorem enrichPersonData_of_panics (W : Providers) (person : Person)
    (hname : person.Name ≠ "")
    (hreply : nationalityPanics (W.get (nationalizeAPI person.Name)) = true) :
    enrichPersonData W person =
      ([.httpGet (agifyAPI person.Name), .httpGet (genderizeAPI person.Name),
          .httpGet (nationalizeAPI person.Name)], none) ∧
    ∀ (S : Store) (params : GoMap GoValue), validateFields params = none →
      Person.MapToPerson {} params = .ok person →
      usecase.CreatePerson W S params =
        ([.httpGet (agifyAPI person.Name), .httpGet (genderizeAPI person.Name),
            .httpGet (nationalizeAPI person.Name)], .panic) := by
  have hnat : (getNationality W person.Name).2 = none := by
    unfold getNationality
    unfold nationalityPanics at hreply
    simp only
    cases hr : W.get (nationalizeAPI person.Name) with
    | transportError => rw [hr] at hreply; simp at hreply
    | readError => rw [hr] at hreply; simp at hreply
    | unmarshalError => rw [hr] at hreply; simp at hreply
    | decoded m =>
      rw [hr] at hreply
      simp only at hreply ⊢
      cases hc : m.lookup "country" with
      | none => rw [hc] at hreply; simp at hreply
      | some v =>
        rw [hc] at hreply
        cases v with
        | array xs =>
          cases xs with
          | nil => simp at hreply
          | cons first rest =>
            cases first with
            | object info => simp at hreply
            | _ => rfl
        | _ => simp at hreply
  have henrich : enrichPersonData W person =
      ([.httpGet (agifyAPI person.Name), .httpGet (genderizeAPI person.Name),
          .httpGet (nationalizeAPI person.Name)], none) := by
    unfold enrichPersonData
    simp only [hname, ne_eq, not_false_eq_true, if_true, hnat]
    rfl
  refine ⟨henrich, ?_⟩
  intro S params hvalid hmap
  simp only [usecase.CreatePerson, hvalid, hmap, henrich]

/-- C9 (code defect): for the name `Alice` the age and gender providers succeed with 30
and `female` and the nationality provider fails with the reply `{"country": ["US"]}`,
which carries no value (`nationalityOutcome` is `none`).  Instead of setting age 30,
gender `female` and the empty nationality, `enrichPersonData` ends in the panic of
`getNationality`, and `CreatePerson` makes no store call and returns no id: the
failure of one provider aborts the request. -/
theorem enrichPersonData_aborts_on_nationality_failure :
    ageOutcome (stringCountryProviders.get (agifyAPI "Alice")) = some 30 ∧
    genderOutcome (stringCountryProviders.get (genderizeAPI "Alice")) = some "female" ∧
    nationalityOutcome (stringCountryProviders.get (nationalizeAPI "Alice")) = none ∧
    (getAge stringCountryProviders "Alice").2 = 30 ∧
    (getGender stringCountryProviders "Alice").2 = "female" ∧
    enrichPersonData stringCountryProviders { Name := "Alice" } =
      ([.httpGet "https://api.agify.io/?name=Alice",
          .httpGet "https://api.genderize.io/?name=Alice",
          .httpGet "https://api.nationalize.io/?name=Alice"], none) ∧
    validateFields [("name", .string "Alice")] = none ∧
    Person.MapToPerson {} [("name", .string "Alice")] = .ok { Name := "Alice" } ∧
    usecase.CreatePerson stringCountryProviders acceptingStore [("name", .string "Alice")] =
      ([.httpGet "https://api.agify.io/?name=Alice",
          .httpGet "https://api.genderize.io/?name=Alice",
          .httpGet "https://api.nationalize.io/?name=Alice"], .panic) :=
  ⟨rfl, rfl, rfl, rfl, rfl, rfl, rfl, rfl, rfl⟩

theorem MapToPerson_frame :
    ∀ (data : GoMap GoValue) (start person : Person),
      Person.MapToPerson start data = .ok person →
      ("age" ∉ data.map Prod.fst → person.Age = start.Age) ∧
      ("gender" ∉ data.map Prod.fst → person.Gender = start.Gender) ∧
      ("nationality" ∉ data.map Prod.fst → person.Nationality = start.Nationality)
  | [], start, person, h => by
    simp only [Person.MapToPerson, Except.ok.injEq] at h
    subst h
    simp
  | (key, value) :: rest, start, person, h => by
    unfold Person.MapToPerson at h
    simp only [List.map_cons, List.mem_cons, not_or]
    split_ifs at h with h1 h2 h3 h4 h5 h6
    · cases value <;> first
        | cases h
        | (obtain ⟨ha, hg, hn⟩ := MapToPerson_frame rest _ person h
           exact ⟨fun hk => ha hk.2, fun hk => hg hk.2, fun hk => hn hk.2⟩)
    · cases value <;> first
        | cases h
        | (obtain ⟨ha, hg, hn⟩ := MapToPerson_frame rest _ person h
           exact ⟨fun hk => ha hk.2, fun hk => hg hk.2, fun hk => hn hk.2⟩)
    · cases value <;> first
        | cases h
        | (obtain ⟨ha, hg, hn⟩ := MapToPerson_frame rest _ person h
           exact ⟨fun hk => ha hk.2, fun hk => hg hk.2, fun hk => hn hk.2⟩)
    · cases value <;> first
        | cases h
        | (obtain ⟨ha, hg, hn⟩ := MapToPerson_frame rest _ person h
           exact ⟨fun hk => absurd h4.symm hk.1, fun hk => hg hk.2, fun hk => hn hk.2⟩)
    · cases value <;> first
        | cases h
        | (obtain ⟨ha, hg, hn⟩ := MapToPerson_frame rest _ person h
           exact ⟨fun hk => ha hk.2, fun hk => absurd h5.symm hk.1, fun hk => hn hk.2⟩)
    · cases value <;> first
        | cases h
        | (obtain ⟨ha, hg, hn⟩ := MapToPerson_frame rest _ person h
           exact ⟨fun hk => ha hk.2, fun hk => hg hk.2, fun hk => absurd h6.symm hk.1⟩)

/-- C10 (counterexample): the payload `gender = male` maps to a person with an empty name
whose gender is `male`; enrichment is skipped and the gender is still `male`, not the
zero value. -/
theorem empty_name_keeps_payload_attributes :
    ¬ EmptyNameGivesZero offlineProviders [("gender", .string "male")] := by
  intro h
  obtain ⟨after, hcall, -, hg, -⟩ := h { Gender := "male" } (by decide) (by decide)
  have e : enrichPersonData offlineProviders { Gender := "male" } =
      ([], some { Gender := "male" }) := rfl
  rw [e] at hcall
  simp only [Prod.mk.injEq, Option.some.injEq, true_and] at hcall
  subst hcall
  revert hg
  decide

/-- C10 (amended): for a person whose name is empty `enrichPersonData` makes no call and
leaves the person as it is: age, gender and nationality keep what the payload mapping
gave them, which is the zero value for each attribute the payload does not carry; and
`CreatePerson` makes the store call only. -/
theorem enrichPersonData_empty_name (W : Providers) (person : Person)
    (hname : person.Name = "") :
    enrichPersonData W person = ([], some person) ∧
    ∀ params : GoMap GoValue, Person.MapToPerson {} params = .ok person →
      ("age" ∉ params.map Prod.fst → person.Age = 0) ∧
      ("gender" ∉ params.map Prod.fst → person.Gender = "") ∧
      ("nationality" ∉ params.map Prod.fst → person.Nationality = "") ∧
      ∀ S : Store, validateFields params = none →
        usecase.CreatePerson W S params =
          ([.repoCreatePerson person],
            match S.CreatePerson person with
            | .ok id => .ok id
            | .error err => .error err) := by
  have henrich : enrichPersonData W person = ([], some person) := by
    unfold enrichPersonData
    simp [hname]
  refine ⟨henrich, ?_⟩
  intro params hmap
  obtain ⟨ha, hg, hn⟩ := MapToPerson_frame params {} person hmap
  refine ⟨ha, hg, hn, ?_⟩
  intro S hvalid
  simp only [usecase.CreatePerson, hvalid, hmap, henrich]
  rfl

/-- Witness of C10 (amended): the payload `surname = Doe, gender = male`. -/
theorem enrichPersonData_empty_name_witness :
    enrichPersonData aliceProviders { Surname := "Doe", Gender := "male" } =
      ([], some { Surname := "Doe", Gender := "male" }) ∧
    usecase.CreatePerson aliceProviders acceptingStore
        [("surname", .string "Doe"), ("gender", .string "male")] =
      ([.repoCreatePerson { Surname := "Doe", Gender := "male" }], .ok 1) :=
  ⟨(enrichPersonData_empty_name aliceProviders { Surname := "Doe", Gender := "male" }
      (by decide)).1,
    ((enrichPersonData_empty_name aliceProviders { Surname := "Doe", Gender := "male" }
      (by decide)).2 [("surname", .string "Doe"), ("gender", .string "male")]
      (by decide)).2.2.2 acceptingStore (by decide)⟩

/-! ## Claim on the extraction of provider replies -/

theorem getNationality_of_panics (W : Providers) (name : String)
    (h : nationalityPanics (W.get (nationalizeAPI name)) = true) :
    (getNationality W name).2 = none := by
  unfold getNationality
  unfold nationalityPanics at h
  simp only
  cases hr : W.get (nationalizeAPI name) with
  | transportError => rw [hr] at h; simp at h
  | readError => rw [hr] at h; simp at h
  | unmarshalError => rw [hr] at h; simp at h
  | decoded m =>
    rw [hr] at h
    simp only at h ⊢
    cases hc : m.lookup "country" with
    | none => rw [hc] at h; simp at h
    | some v =>
      rw [hc] at h
      cases v with
      | array xs =>
        cases xs with
        | nil => simp at h
        | cons first rest =>
          cases first with
          | object info => simp at h
          | _ => rfl
      | _ => simp at h

/-- The outcome of `getNationality` for every reply: a panic on the replies singled out
by `nationalityPanics`, the value of the provider or the empty string on all others. -/
theorem getNationality_eq (W : Providers) (name : String) :
    (getNationality W name).2 =
      if nationalityPanics (W.get (nationalizeAPI name)) = true then none
      else some ((nationalityOutcome (W.get (nationalizeAPI name))).getD "") := by
  by_cases h : nationalityPanics (W.get (nationalizeAPI name)) = true
  · rw [if_pos h, getNationality_of_panics W name h]
  · rw [if_neg h]
    exact getNationality_of_not_panics W name (by simpa using h)

/-- C11 (code defect): when the nationality provider answers `{"country": [1]}`, a
`country` array whose first element is not an object, `getNationality` does not return
the empty string: the unchecked assertion `countryArray[0].(map[string]interface{})`
panics, after the three GET calls, and `enrichPersonData` and `CreatePerson` end in that
panic without a store call.  The replies `{"country": []}` and `{"country": 1}` do give
the empty string, and `getAge` and `getGender` give `0` and `""` on their malformed
replies. -/
theorem getNationality_panics_on_non_object :
    (getNationality malformedNationalityProviders "Alice").2 = none ∧
    enrichPersonData malformedNationalityProviders { Name := "Alice" } =
      ([.httpGet "https://api.agify.io/?name=Alice",
          .httpGet "https://api.genderize.io/?name=Alice",
          .httpGet "https://api.nationalize.io/?name=Alice"], none) ∧
    usecase.CreatePerson malformedNationalityProviders acceptingStore
        [("name", .string "Alice")] =
      ([.httpGet "https://api.agify.io/?name=Alice",
          .httpGet "https://api.genderize.io/?name=Alice",
          .httpGet "https://api.nationalize.io/?name=Alice"], .panic) ∧
    (getNationality ⟨fun _ => .decoded [("country", .array [])]⟩ "Alice").2 = some "" ∧
    (getNationality ⟨fun _ => .decoded [("country", .float64 1)]⟩ "Alice").2 = some "" ∧
    (getNationality ⟨fun _ => .decoded [("country", .array [.object []])]⟩ "Alice").2 =
      some "" ∧
    (getNationality ⟨fun _ => .unmarshalError⟩ "Alice").2 = some "" ∧
    (getAge ⟨fun _ => .decoded [("age", .string "x")]⟩ "Alice").2 = 0 ∧
    (getGender ⟨fun _ => .decoded [("gender", .array [])]⟩ "Alice").2 = "" :=
  ⟨rfl, rfl, rfl, rfl, rfl, rfl, rfl, rfl, rfl⟩

/-! ## Claim on the update statement -/

theorem dropLastTwo_append (s : String) : dropLastTwo (s ++ ", ") = s := by
  unfold dropLastTwo
  have h2 : (", " : String).data.length = 2 := rfl
  simp only [String.data_append, List.length_append, h2, Nat.add_sub_cancel, List.take_left']

theorem commaText_eq_intercalate :
    ∀ (c : String) (cs : List String),
      commaText (c :: cs) = ", ".intercalate (c :: cs) ++ ", "
  | c, [] => by simp [commaText, String.intercalate, String.intercalate.go]
  | c, d :: rest => by
    rw [intercalate_cons_cons, commaText, commaText_eq_intercalate d rest]
    simp only [String.append_assoc]

theorem foldl_updateStep :
    ∀ (fs : GoMap GoValue) (query : String) (args : List GoValue) (i : Nat),
      fs.foldl updateStep (query, args, i) =
        (query ++ commaText (assignments (fs.map Prod.fst) i), args ++ fs.map Prod.snd,
          i + fs.length)
  | [], query, args, i => by
    simp [assignments, commaText]
  | fv :: rest, query, args, i => by
    rw [List.foldl_cons, updateStep, foldl_updateStep rest]
    simp only [List.map_cons, assignments, commaText, String.append_assoc, List.append_assoc,
      List.singleton_append, List.length_cons, Prod.mk.injEq, true_and]
    omega

/-- The statement `postgresRepository.UpdatePerson` sends for a map with at least one
field is the one of the specification. -/
theorem UpdatePerson_eq (id : Int) (updates : GoMap GoValue) (hne : updates ≠ []) :
    postgresRepository.UpdatePerson id updates =
      (expectedUpdate (updates.map Prod.fst), updates.map Prod.snd ++ [.int id]) := by
  cases updates with
  | nil => exact absurd rfl hne
  | cons fv rest =>
    unfold postgresRepository.UpdatePerson expectedUpdate
    simp only [foldl_updateStep, List.map_cons, assignments, List.nil_append, List.length_cons,
      List.length_map]
    rw [commaText_eq_intercalate, (String.append_assoc "UPDATE people SET " _ ", ").symm,
      dropLastTwo_append, Nat.add_comm 1 (rest.length + 1)]
    simp only [String.append_assoc]

/-- The `PUT` handler validates and hands over the payload without the key `id`. -/
theorem Delivery_UpdatePerson_strips_id (S : Store) (idParam : String) (id : Int)
    (updates : GoMap GoValue) (hid : Atoi idParam = .ok id) :
    "id" ∉ (mapDelete updates "id").map Prod.fst ∧
    (validateFields (mapDelete updates "id") = none →
      (Delivery.UpdatePerson S idParam (.ok updates)).1 =
        [.repoUpdatePerson id (mapDelete updates "id")]) := by
  constructor
  · intro hmem
    obtain ⟨kv, hkv, hk⟩ := List.mem_map.mp hmem
    have := (List.mem_filter.mp hkv).2
    simp [hk] at this
  · intro hvalid
    unfold Delivery.UpdatePerson usecase.UpdatePerson
    simp only [hid, hvalid]
    cases S.UpdatePerson id (mapDelete updates "id") <;> rfl

/-- C12 (code defect): for `PUT /people/5` with the body `{"id": 9}` the handler strips
`id`, the empty map passes validation and reaches the repository, and the statement
sent is `UPDATE people SE WHERE id = $1`: the slice that drops the trailing `, ` cuts
into `SET ` when there is no assignment.  With the field `name` next to `id` the
statement is the one of the specification and `id` is not assigned. -/
theorem UpdatePerson_empty_map_statement :
    (Delivery.UpdatePerson acceptingStore "5" (.ok [("id", .float64 9)])).1 =
      [.repoUpdatePerson 5 []] ∧
    updateRequest (.repoUpdatePerson 5 []) =
      some ("UPDATE people SE WHERE id = $1", [.int 5]) ∧
    expectedUpdate [] = "UPDATE people SET  WHERE id = $1" ∧
    (postgresRepository.UpdatePerson 5 []).1 ≠ expectedUpdate [] ∧
    (postgresRepository.UpdatePerson 5 []).1 ≠ "UPDATE people SET WHERE id = $1" ∧
    (Delivery.UpdatePerson acceptingStore "5"
        (.ok [("id", .float64 9), ("name", .string "Ann")])).1 =
      [.repoUpdatePerson 5 [("name", .string "Ann")]] ∧
    postgresRepository.UpdatePerson 5 [("name", .string "Ann")] =
      ("UPDATE people SET name = $1 WHERE id = $2", [.string "Ann", .int 5]) :=
  ⟨rfl, rfl, by decide, by decide, by decide, rfl, rfl⟩

end EnrichServer
